import Mathlib

/-!
Verification of the CodeMatrix layout engine: node classification into the
4×4 segment matrix, class/method grouping, the three 2D rectangle packers
(shelf, guillotine, column), per-segment layout and the column-width
allocator.  All definitions are shallow embeddings of the TypeScript
source; JavaScript numbers are modelled as rationals (`ℚ`), strings as
Lean `String` manipulated through their character lists, and JS `Map`s as
functions from keys to lists.
-/

namespace CodeMatrix

/-! ## String helpers (JS string primitives, char-list based) -/

/-- JS `String.prototype.toLowerCase` (ASCII-faithful). -/
def lowerStr (s : String) : String := String.mk (s.toList.map Char.toLower)

/-- Auxiliary scan for substring containment. -/
def containsAux (pat : List Char) : List Char → Bool
  | [] => pat.isEmpty
  | c :: rest => pat.isPrefixOf (c :: rest) || containsAux pat rest

/-- JS `s.includes(pat)`. -/
def strContains (s pat : String) : Bool := containsAux pat.toList s.toList

/-- JS `s.startsWith(pat)`. -/
def strStartsWith (s pat : String) : Bool := pat.toList.isPrefixOf s.toList

/-- Lexicographic char-code comparison: the model of both JS default string
sorting and `localeCompare`-based sorting used by the source (ASCII data). -/
def strLeAux : List Char → List Char → Bool
  | [], _ => true
  | _ :: _, [] => false
  | x :: xs, y :: ys => if x < y then true else if y < x then false else strLeAux xs ys

/-- `strCmpLe a b` = "a sorts no later than b". -/
def strCmpLe (a b : String) : Bool := strLeAux a.toList b.toList

/-- JS `s.split(sep)` for a class of single-character separators
(empty pieces preserved, as in JS). -/
def splitOnPred (p : Char → Bool) : List Char → List (List Char)
  | [] => [[]]
  | c :: rest =>
    if p c then [] :: splitOnPred p rest
    else match splitOnPred p rest with
      | [] => [[c]]
      | h :: t => (c :: h) :: t

/-- JS `s.split('|')`. -/
def splitPipe (s : String) : List String :=
  (splitOnPred (fun c => c = '|') s.toList).map String.mk

/-- JS `parts.join(sep)` for string lists. -/
def strJoin (sep : String) (parts : List String) : String :=
  String.mk (List.intercalate sep.toList (parts.map String.toList))

/-- Stable sort modelling JS `Array.prototype.sort` (ES2019+ requires
stability); `le` must hold on equal keys for the model to be stable. -/
def sortBy {α : Type} (le : α → α → Bool) (l : List α) : List α :=
  l.insertionSort (fun a b => le a b)

theorem mem_sortBy {α : Type} (le : α → α → Bool) (l : List α) (a : α) :
    a ∈ sortBy le l ↔ a ∈ l := by
  simp [sortBy, List.mem_insertionSort]

theorem sortBy_perm {α : Type} (le : α → α → Bool) (l : List α) :
    (sortBy le l).Perm l :=
  List.perm_insertionSort _ l

/-! ## Data model (`NodeData`, `Edge`)

`details` is an open bag in the source; classification only tests the
truthiness of `details.methods` / `details.functions`, which we model as
the two booleans `detailsMethods` / `detailsFunctions`. -/

structure NodeData where
  id : String
  type : String
  name : String
  filename : Option String := none
  hierarchy : Option String := none
  detailsMethods : Bool := false
  detailsFunctions : Bool := false
deriving DecidableEq, Repr

/-- An edge `(from, to, type)`; `from` is a Lean keyword, hence `fromId`/`toId`. -/
structure Edge where
  fromId : String
  toId : String
  type : String
deriving DecidableEq, Repr

/-! ## Node classifier (`index.tsx`) -/

def hasInfraInPath (n : NodeData) : Bool :=
  match n.filename with
  | none => false
  | some f => strContains f "/infra/" || strContains f "\\infra\\"

def hasApiOrContractInPath (n : NodeData) : Bool :=
  strContains (n.filename.getD "") "/api/" ||
  strContains (n.filename.getD "") "\\api\\" ||
  strContains (n.filename.getD "") "/contract/" ||
  strContains (n.filename.getD "") "\\contract\\"

def hasGatewayInPath (n : NodeData) : Bool :=
  strContains (n.filename.getD "") "/gateway/" ||
  strContains (n.filename.getD "") "\\gateway\\" ||
  strContains (n.filename.getD "") "/gateways/" ||
  strContains (n.filename.getD "") "\\gateways\\" ||
  strContains (n.filename.getD "") "/client/" ||
  strContains (n.filename.getD "") "\\client\\" ||
  strContains (n.filename.getD "") "/clients/" ||
  strContains (n.filename.getD "") "\\clients\\" ||
  strContains (lowerStr n.name) "gateway" ||
  strContains (lowerStr n.name) "client"

def isTestNode (n : NodeData) : Bool :=
  if strContains (lowerStr (n.filename.getD "")) "tests/" ||
     strContains (lowerStr (n.filename.getD "")) "tests\\" then true
  else
    (strContains (lowerStr (n.filename.getD "")) "/test/" ||
     strContains (lowerStr (n.filename.getD "")) "\\test\\") ||
    (strContains (lowerStr (n.hierarchy.getD "")) "tests" ||
     strContains (lowerStr (n.hierarchy.getD "")) "test") ||
    (strContains (lowerStr n.name) "_test" ||
     strContains (lowerStr n.name) "test_" ||
     strContains (lowerStr n.id) "_test" ||
     strContains (lowerStr n.id) "test_") ||
    (strContains (lowerStr n.id) "::test::" ||
     strContains (lowerStr n.id) "::tests::" ||
     strStartsWith (lowerStr n.id) "test::" ||
     strStartsWith (lowerStr n.id) "tests::")

def isDataType (n : NodeData) : Bool :=
  if lowerStr n.type = "enum" then true
  else if lowerStr n.type = "struct" || lowerStr n.type = "dto" then
    !n.detailsMethods && !n.detailsFunctions
  else false

def isStructWithMethods (n : NodeData) : Bool :=
  if lowerStr n.type = "struct" || lowerStr n.type = "dto" then
    n.detailsMethods || n.detailsFunctions
  else false

def isFreeFunction (n : NodeData) : Bool := lowerStr n.type = "function"

/-- `getNodeFolder`: directory part of the filename, separators normalised. -/
def getNodeFolder (n : NodeData) : String :=
  match n.filename with
  | none => ""
  | some f => strJoin "/" (((splitOnPred (fun c => c = '/' || c = '\\') f.toList).map
      String.mk).dropLast)

def isClassStruct (n : NodeData) : Bool := lowerStr n.type = "class_struct"

def isMethod (n : NodeData) : Bool := lowerStr n.type = "method"

def isCrate (n : NodeData) : Bool := lowerStr n.type = "crate"

inductive Col | left | middle | right | gateway
deriving DecidableEq, Repr

inductive Row | top | middle | bottom | tests
deriving DecidableEq, Repr

/-- A segment is a (column, row) pair; the TS string union
`'left-top' | ... | 'gateway-tests'` has exactly these 16 values. -/
def GridSegment : Type := Col × Row

instance : DecidableEq GridSegment := instDecidableEqProd

/-- Column selection, in the source's priority order. -/
def segColumn (n : NodeData) : Col :=
  if hasGatewayInPath n then .gateway
  else if hasInfraInPath n then .right
  else if hasApiOrContractInPath n then .left
  else .middle

/-- Row selection, in the source's priority order. -/
def segRow (n : NodeData) : Row :=
  if isTestNode n then .tests
  else if isDataType n then .top
  else if isClassStruct n || isMethod n then .middle
  else if isStructWithMethods n then .middle
  else if isFreeFunction n then .bottom
  else .middle

def segmentOf (n : NodeData) : GridSegment := (segColumn n, segRow n)

/-- Loop body of `categorizeNodesBySegment`: crate nodes are skipped, every
other node is pushed onto the bucket of its segment. -/
def categStep (m : GridSegment → List NodeData) (n : NodeData) : GridSegment → List NodeData :=
  if isCrate n then m
  else fun s => if s = segmentOf n then m s ++ [n] else m s

/-- `categorizeNodesBySegment`: all 16 buckets initialised empty, then each
non-crate node pushed onto the bucket of its segment.  The JS `Map` is
modelled as a function on the 16-element segment type. -/
def categorizeNodesBySegment (nodes : List NodeData) : GridSegment → List NodeData :=
  nodes.foldl categStep (fun _ => [])

theorem categorize_go (l : List NodeData) :
    ∀ (acc : GridSegment → List NodeData) (s : GridSegment),
      l.foldl categStep acc s =
        acc s ++ l.filter (fun n => !isCrate n && segmentOf n = s) := by
  induction l with
  | nil => simp
  | cons n l ih =>
    intro acc s
    by_cases hc : isCrate n
    · simp [categStep, hc, ih]
    · by_cases hs : s = segmentOf n
      · simp [categStep, hc, ih, hs]
      · simp [categStep, hc, ih, hs, Ne.symm hs]

theorem categorize_characterization (nodes : List NodeData) (s : GridSegment) :
    categorizeNodesBySegment nodes s =
      nodes.filter (fun n => !isCrate n && segmentOf n = s) := by
  simp [categorizeNodesBySegment, categorize_go]

theorem mem_categorize (nodes : List NodeData) (s : GridSegment) (n : NodeData) :
    n ∈ categorizeNodesBySegment nodes s ↔
      n ∈ nodes ∧ ¬isCrate n ∧ segmentOf n = s := by
  simp [categorize_characterization, List.mem_filter, and_assoc]

/-! ## Relationship grouper

Two independent mechanisms exist in the source:
 * `groupClassesWithMethods` (layout engine, `index.tsx`): pipe-delimited id
   structure, over the segment-filtered node list it is handed;
 * `classStructMethodsMap` (menu component, `LeftMenu.tsx`): `includes`
   edges, resolved against the entire node catalog. -/

/-- `getParentClassId`: the method id with its final pipe-delimited part
removed (`null` on non-methods and ids without a pipe). -/
def getParentClassId (n : NodeData) : Option String :=
  if !isMethod n then none
  else if 2 ≤ (splitPipe n.id).length then
    some (strJoin "|" (splitPipe n.id).dropLast)
  else none

structure ClassWithMethods where
  classNode : NodeData
  methods : List NodeData
deriving DecidableEq, Repr

structure GroupedNodes where
  groups : List ClassWithMethods
  orphanNodes : List NodeData
deriving DecidableEq, Repr

/-- Loop body filling the `methodsByClass` map of `groupClassesWithMethods`. -/
def mbcStep (m : String → List NodeData) (md : NodeData) : String → List NodeData :=
  match getParentClassId md with
  | none => m
  | some pid => fun k => if k = pid then m k ++ [md] else m k

def nameLe (a b : NodeData) : Bool := strCmpLe a.name b.name

/-- `groupClassesWithMethods`: classes paired with the methods whose parent
id (per the pipe structure) equals the class id, methods sorted by name,
groups sorted by class name; non-class non-method nodes become orphans. -/
def groupClassesWithMethods (nodes : List NodeData) : GroupedNodes :=
  { groups :=
      sortBy (fun a b => strCmpLe a.classNode.name b.classNode.name)
        ((nodes.filter isClassStruct).map (fun c =>
          { classNode := c
            methods := sortBy nameLe
              (((nodes.filter isMethod).foldl mbcStep (fun _ => [])) c.id) }))
    orphanNodes := nodes.filter (fun n => !isClassStruct n && !isMethod n) }

theorem mbc_go (l : List NodeData) :
    ∀ (acc : String → List NodeData) (k : String),
      l.foldl mbcStep acc k =
        acc k ++ l.filter (fun md => getParentClassId md = some k) := by
  induction l with
  | nil => simp
  | cons md l ih =>
    intro acc k
    match hp : getParentClassId md with
    | none => simp [mbcStep, hp, ih]
    | some pid =>
      by_cases hk : k = pid
      · subst hk; simp [mbcStep, hp, ih]
      · simp [mbcStep, hp, ih, hk, Ne.symm hk]

theorem mem_groups_iff (nodes : List NodeData) (g : ClassWithMethods) :
    g ∈ (groupClassesWithMethods nodes).groups ↔
      g.classNode ∈ nodes ∧ isClassStruct g.classNode ∧
        g.methods = sortBy nameLe
          (nodes.filter (fun md => isMethod md && getParentClassId md = some g.classNode.id)) := by
  constructor
  · intro hg
    simp only [groupClassesWithMethods] at hg
    rw [mem_sortBy] at hg
    obtain ⟨c, hc, rfl⟩ := List.mem_map.mp hg
    have hc' := List.mem_filter.mp hc
    refine ⟨hc'.1, hc'.2, ?_⟩
    simp only [mbc_go, List.nil_append, List.filter_filter]
    simp [Bool.and_comm]
  · rintro ⟨hmem, hcls, hms⟩
    simp only [groupClassesWithMethods]
    rw [mem_sortBy, List.mem_map]
    refine ⟨g.classNode, List.mem_filter.mpr ⟨hmem, hcls⟩, ?_⟩
    cases g with
    | mk c ms =>
      simp only at hms ⊢
      rw [hms]
      congr 1
      simp only [mbc_go, List.nil_append, List.filter_filter]
      simp [Bool.and_comm]

theorem mem_methods_of_group (nodes : List NodeData) (g : ClassWithMethods)
    (hg : g ∈ (groupClassesWithMethods nodes).groups) (m : NodeData) :
    m ∈ g.methods ↔
      m ∈ nodes ∧ isMethod m ∧ getParentClassId m = some g.classNode.id := by
  obtain ⟨-, -, hms⟩ := (mem_groups_iff nodes g).mp hg
  rw [hms, mem_sortBy, List.mem_filter]
  simp [and_assoc]

/-- Loop body of the menu component's edge-based `classStructMethodsMap`:
an `includes` edge whose source id carries the class/struct marker and whose
target id carries the method marker attaches the target node — resolved
against the full catalog — to the source id's bucket. -/
def cmEdgeStep (allNodes : List NodeData) (m : String → List NodeData) (e : Edge) :
    String → List NodeData :=
  if e.type = "includes" && strContains e.fromId "class_struct::" &&
      strContains e.toId "|method::" then
    fun k =>
      if k = e.fromId then
        match allNodes.find? (fun n => n.id = e.toId) with
        | some mn => m e.fromId ++ [mn]
        | none => m e.fromId
      else m k
  else m

/-- `classStructMethodsMap` (`LeftMenu.tsx`): build the bucket map from the
`includes` edges over the full catalog, then sort each bucket by name. -/
def classStructMethodsMap (edges : List Edge) (allNodes : List NodeData) :
    String → List NodeData :=
  fun k => sortBy nameLe ((edges.foldl (cmEdgeStep allNodes) (fun _ => [])) k)

/-! ## Packing primitives (`binPacking` module)

The item payload (`data: any`) plays no role in any algorithm and is
omitted; `PackedItem` keeps the underlying item plus the assigned
position, modelling the JS spread `{...item, x, y}`. -/

structure PackableItem where
  id : String
  width : ℚ
  height : ℚ
deriving DecidableEq, Repr

structure PackedItem where
  item : PackableItem
  x : ℚ
  y : ℚ
deriving DecidableEq, Repr

structure PackingResult where
  items : List PackedItem
  containerWidth : ℚ
  containerHeight : ℚ
deriving DecidableEq, Repr

/-- A shelf; the source's `items` field is written but never read, so it is
omitted from the model. -/
structure Shelf where
  y : ℚ
  height : ℚ
  width : ℚ
deriving DecidableEq, Repr

/-- JS `options.padding || 3`: `undefined` and `0` (falsy) give the default. -/
def resolvePadding (o : Option ℚ) : ℚ :=
  match o with
  | none => 3
  | some q => if q = 0 then 3 else q

/-- JS `options.sortByHeight !== false`. -/
def resolveSortByHeight (o : Option Bool) : Bool :=
  match o with
  | some false => false
  | _ => true

structure PackOptions where
  padding : Option ℚ := none
  sortByHeight : Option Bool := none
deriving DecidableEq, Repr

/-- The shelf scan: place on the first shelf with room (width fits the
container, item height fits the shelf height), bumping that shelf's running
width; `none` if no shelf qualifies.  Returns the updated shelf list and
the assigned `(x, y)`. -/
def placeOnShelves (cw iw ih : ℚ) : List Shelf → Option (List Shelf × ℚ × ℚ)
  | [] => none
  | s :: rest =>
    if s.width + iw ≤ cw ∧ ih ≤ s.height then
      some ({ s with width := s.width + iw } :: rest, s.width, s.y)
    else
      (placeOnShelves cw iw ih rest).map (fun r => (s :: r.1, r.2))

structure ShelfState where
  shelves : List Shelf
  packed : List PackedItem
  currentY : ℚ
deriving DecidableEq, Repr

/-- One iteration of the shelf packer's main loop. -/
def shelfStep (cw padding : ℚ) (st : ShelfState) (item : PackableItem) : ShelfState :=
  match placeOnShelves cw (item.width + padding) (item.height + padding) st.shelves with
  | some (shelves', x, y) =>
    { shelves := shelves', packed := st.packed ++ [⟨item, x, y⟩], currentY := st.currentY }
  | none =>
    { shelves := st.shelves ++ [⟨st.currentY, item.height + padding, item.width + padding⟩]
      packed := st.packed ++ [⟨item, padding, st.currentY⟩]
      currentY := st.currentY + (item.height + padding) }

/-- The optional pre-sort by descending height (stable, like JS `sort`). -/
def shelfSorted (opts : PackOptions) (items : List PackableItem) : List PackableItem :=
  if resolveSortByHeight opts.sortByHeight then
    sortBy (fun a b => decide (b.height ≤ a.height)) items
  else items

def shelfRun (cw padding : ℚ) (items : List PackableItem) : ShelfState :=
  items.foldl (shelfStep cw padding) ⟨[], [], padding⟩

/-- `packItems`: shelf-based packing. -/
def packItems (items : List PackableItem) (containerWidth : ℚ) (opts : PackOptions) :
    PackingResult :=
  { items := (shelfRun containerWidth (resolvePadding opts.padding) (shelfSorted opts items)).packed
    containerWidth := containerWidth
    containerHeight :=
      (shelfRun containerWidth (resolvePadding opts.padding) (shelfSorted opts items)).currentY }

/-! ### Guillotine packing

The seed free rectangle has `height: Infinity`; heights of free rectangles
are therefore modelled by `XQ`, the rationals extended with an infinity. -/

inductive XQ where
  | inf : XQ
  | fin : ℚ → XQ
deriving DecidableEq, Repr

/-- `a ≤ b` on extended heights (JS `<=` with `Infinity`). -/
def XQ.leB : XQ → XQ → Bool
  | _, inf => true
  | inf, fin _ => false
  | fin a, fin b => decide (a ≤ b)

/-- `a < b` on extended heights (JS `<` with `Infinity`). -/
def XQ.ltB (a b : XQ) : Bool := !(XQ.leB b a)

def XQ.sub : XQ → ℚ → XQ
  | inf, _ => inf
  | fin a, q => fin (a - q)

def XQ.addQ (q : ℚ) : XQ → XQ
  | inf => inf
  | fin a => fin (q + a)

/-- JS `Math.min` on extended heights. -/
def XQ.minv (a b : XQ) : XQ := if XQ.ltB a b then a else b

structure FreeRect where
  x : ℚ
  y : ℚ
  width : ℚ
  height : XQ
deriving DecidableEq, Repr

/-- `rect.width >= itemWidth && rect.height >= itemHeight`. -/
def fitsIn (r : FreeRect) (iw ih : ℚ) : Bool :=
  decide (iw ≤ r.width) && XQ.leB (XQ.fin ih) r.height

/-- Best-short-side-fit score: `min(leftoverHoriz, leftoverVert)`. -/
def shortSideFit (r : FreeRect) (iw ih : ℚ) : XQ :=
  XQ.minv (XQ.fin (r.width - iw)) (XQ.sub r.height ih)

/-- Scan for the qualifying free rectangle with the strictly smallest
short-side fit (first wins on ties), tracking its index for the `splice`. -/
def bestFold (iw ih : ℚ) (st : XQ × Option (ℕ × FreeRect)) (p : ℕ × FreeRect) :
    XQ × Option (ℕ × FreeRect) :=
  if fitsIn p.2 iw ih && XQ.ltB (shortSideFit p.2 iw ih) st.1 then
    (shortSideFit p.2 iw ih, some p)
  else st

def findBestRect (rects : List FreeRect) (iw ih : ℚ) : Option (ℕ × FreeRect) :=
  (rects.enum.foldl (bestFold iw ih) (XQ.inf, none)).2

/-- The right remainder of a consumed free rectangle (height = item height). -/
def splitRight (r : FreeRect) (iw ih : ℚ) : List FreeRect :=
  if iw < r.width then [⟨r.x + iw, r.y, r.width - iw, XQ.fin ih⟩] else []

/-- The bottom remainder of a consumed free rectangle (full width). -/
def splitBottom (r : FreeRect) (iw ih : ℚ) : List FreeRect :=
  if XQ.ltB (XQ.fin ih) r.height then [⟨r.x, r.y + ih, r.width, XQ.sub r.height ih⟩] else []

/-- The source's `rectanglesOverlap` helper, on free rectangles. -/
def rectanglesOverlap (a b : FreeRect) : Bool :=
  !(decide (a.x + a.width ≤ b.x) || decide (b.x + b.width ≤ a.x) ||
    XQ.leB (XQ.addQ a.y a.height) (XQ.fin b.y) || XQ.leB (XQ.addQ b.y b.height) (XQ.fin a.y))

/-- The pairwise overlap prune: walking the array from the back, a
rectangle is removed when it overlaps an earlier-indexed one; equivalently,
keep each rectangle iff it overlaps none of the original earlier entries. -/
def pruneAux (seen : List FreeRect) : List FreeRect → List FreeRect
  | [] => []
  | r :: rest =>
    if seen.any (fun s => rectanglesOverlap r s) then pruneAux (seen ++ [r]) rest
    else r :: pruneAux (seen ++ [r]) rest

def pruneOverlapping (l : List FreeRect) : List FreeRect := pruneAux [] l

structure GuillotineState where
  freeRects : List FreeRect
  packed : List PackedItem
deriving DecidableEq, Repr

/-- One iteration of the guillotine packer's main loop: find the best free
rectangle (if any — otherwise the item is dropped), place the item at its
origin, replace it by its right/bottom remainders, prune overlaps. -/
def guillotineStep (padding : ℚ) (st : GuillotineState) (item : PackableItem) :
    GuillotineState :=
  match findBestRect st.freeRects (item.width + padding) (item.height + padding) with
  | none => st
  | some (idx, best) =>
    { freeRects := pruneOverlapping
        (st.freeRects.eraseIdx idx ++
          (splitRight best (item.width + padding) (item.height + padding) ++
           splitBottom best (item.width + padding) (item.height + padding)))
      packed := st.packed ++ [⟨item, best.x, best.y⟩] }

/-- Pre-sort by descending area (stable). -/
def guillotineSorted (items : List PackableItem) : List PackableItem :=
  sortBy (fun a b => decide (b.width * b.height ≤ a.width * a.height)) items

def guillotineRun (cw padding : ℚ) (items : List PackableItem) : GuillotineState :=
  (guillotineSorted items).foldl (guillotineStep padding)
    ⟨[⟨padding, padding, cw - padding * 2, XQ.inf⟩], []⟩

/-- `Math.max(...packedItems.map(i => i.y + i.height), 0)`. -/
def maxYOf (l : List PackedItem) : ℚ :=
  l.foldl (fun acc pk => max acc (pk.y + pk.item.height)) 0

/-- `packItemsGuillotine`. -/
def packItemsGuillotine (items : List PackableItem) (containerWidth : ℚ)
    (opts : PackOptions) : PackingResult :=
  { items := (guillotineRun containerWidth (resolvePadding opts.padding) items).packed
    containerWidth := containerWidth
    containerHeight :=
      maxYOf (guillotineRun containerWidth (resolvePadding opts.padding) items).packed +
        resolvePadding opts.padding }

/-! ### Column packing -/

structure ColumnOptions where
  padding : Option ℚ := none
  minColumnWidth : Option ℚ := none
  maxColumns : Option ℤ := none
deriving DecidableEq, Repr

/-- JS `options.minColumnWidth || 150`. -/
def resolveMinColW (o : Option ℚ) : ℚ :=
  match o with
  | none => 150
  | some q => if q = 0 then 150 else q

/-- JS `options.maxColumns || 4`. -/
def resolveMaxCols (o : Option ℤ) : ℤ :=
  match o with
  | none => 4
  | some z => if z = 0 then 4 else z

/-- `Math.min(Math.max(1, Math.floor(containerWidth / minColumnWidth)), maxColumns)`. -/
def numColumns (cw mcw : ℚ) (maxCols : ℤ) : ℤ :=
  min (max 1 ⌊cw / mcw⌋) maxCols

/-- `Math.floor(containerWidth / numColumns)` as a rational. -/
def columnWidthOf (cw : ℚ) (nc : ℤ) : ℚ := ((⌊cw / (nc : ℚ)⌋ : ℤ) : ℚ)

/-- One iteration of the column packer's round-robin loop (`p.1` is the
item's index in the input list). -/
def columnStep (colW padding : ℚ) (ncN : ℕ)
    (st : List (List PackedItem) × List ℚ) (p : ℕ × PackableItem) :
    List (List PackedItem) × List ℚ :=
  (st.1.set (p.1 % ncN)
      (st.1.getD (p.1 % ncN) [] ++
        [⟨p.2, ((p.1 % ncN : ℕ) : ℚ) * colW + padding, st.2.getD (p.1 % ncN) 0⟩]),
   st.2.set (p.1 % ncN) (st.2.getD (p.1 % ncN) 0 + p.2.height + padding))

def columnRun (cw padding mcw : ℚ) (maxCols : ℤ) (items : List PackableItem) :
    List (List PackedItem) × List ℚ :=
  items.enum.foldl
    (columnStep (columnWidthOf cw (numColumns cw mcw maxCols)) padding
      (numColumns cw mcw maxCols).toNat)
    (List.replicate (numColumns cw mcw maxCols).toNat [],
     List.replicate (numColumns cw mcw maxCols).toNat padding)

/-- `packIntoColumns`: round-robin distribution, column-major output order
(`columns.flat()`), container height `Math.max(...columnHeights, padding)`. -/
def packIntoColumns (items : List PackableItem) (containerWidth : ℚ)
    (opts : ColumnOptions) : PackingResult :=
  { items := (columnRun containerWidth (resolvePadding opts.padding)
      (resolveMinColW opts.minColumnWidth) (resolveMaxCols opts.maxColumns) items).1.flatten
    containerWidth := containerWidth
    containerHeight :=
      ((columnRun containerWidth (resolvePadding opts.padding)
        (resolveMinColW opts.minColumnWidth) (resolveMaxCols opts.maxColumns) items).2).foldl
        max (resolvePadding opts.padding) }

/-! ## Segment layout policy (`layoutNodesInSegment`) -/

structure LayoutConfig where
  columnWidth : ℚ
  rowHeight : ℚ
  padding : ℚ
  dataTypeBoxWidth : ℚ
  dataTypeBoxHeight : ℚ
  structWithMethodsBoxWidth : ℚ
  structWithMethodsBoxHeight : ℚ
  classNodeWidth : ℚ
  classNodeHeight : ℚ
  methodNodeWidth : ℚ
  methodNodeHeight : ℚ
deriving DecidableEq, Repr

def DEFAULT_LAYOUT_CONFIG : LayoutConfig :=
  { columnWidth := 600, rowHeight := 400, padding := 20
    dataTypeBoxWidth := 160, dataTypeBoxHeight := 60
    structWithMethodsBoxWidth := 320, structWithMethodsBoxHeight := 60
    classNodeWidth := 160, classNodeHeight := 60
    methodNodeWidth := 240, methodNodeHeight := 60 }

structure LayoutBox where
  node : NodeData
  x : ℚ
  y : ℚ
  width : ℚ
  height : ℚ
deriving DecidableEq, Repr

/-- The source's base-x conditional
`column === 'left' ? 0 : column === 'middle' ? cw : cw * 2`:
`right` and `gateway` both fall into the final branch. -/
def segmentBaseX (cfg : LayoutConfig) : Col → ℚ
  | .left => 0
  | .middle => cfg.columnWidth
  | _ => cfg.columnWidth * 2

/-- The source's base-y conditional
`row === 'top' ? 0 : row === 'middle' ? rh : rh * 2`:
`bottom` and `tests` both fall into the final branch. -/
def segmentBaseY (cfg : LayoutConfig) : Row → ℚ
  | .top => 0
  | .middle => cfg.rowHeight
  | _ => cfg.rowHeight * 2

/-- Left-float placement of one fixed-size box, advancing the running x. -/
structure FlowState where
  currentX : ℚ
  currentY : ℚ
  maxHeightInRow : ℚ
  acc : List LayoutBox
deriving DecidableEq, Repr

def flowPlace (pad boxW boxH : ℚ) (st : FlowState) (n : NodeData) : FlowState :=
  { currentX := st.currentX + boxW + pad / 2
    currentY := st.currentY
    maxHeightInRow := max st.maxHeightInRow boxH
    acc := st.acc ++ [⟨n, st.currentX, st.currentY, boxW, boxH⟩] }

/-- Wrap to the next line when the box would overflow the column width, then
place. -/
def flowStep (baseX pad colW boxW boxH : ℚ) (st : FlowState) (n : NodeData) : FlowState :=
  flowPlace pad boxW boxH
    (if st.currentX + boxW > baseX + colW - pad then
      { st with currentX := baseX + pad
                currentY := st.currentY + st.maxHeightInRow + pad / 2
                maxHeightInRow := 0 }
     else st) n

/-- Top row iteration order: folders sorted lexicographically (first-seen
order deduplication, like JS `Map` keys), nodes inside a folder sorted by
name. -/
def topRowOrdered (nodes : List NodeData) : List NodeData :=
  ((sortBy (fun a b : String => strCmpLe a b) ((nodes.map getNodeFolder).eraseDups)).map
    (fun f => sortBy nameLe (nodes.filter (fun n => getNodeFolder n = f)))).flatten

def layoutTopRow (nodes : List NodeData) (cfg : LayoutConfig) (baseX baseY : ℚ) :
    List LayoutBox :=
  ((topRowOrdered nodes).foldl
    (flowStep baseX cfg.padding cfg.columnWidth cfg.dataTypeBoxWidth cfg.dataTypeBoxHeight)
    ⟨baseX + cfg.padding, baseY + cfg.padding, 0, []⟩).acc

def layoutBottomRow (nodes : List NodeData) (cfg : LayoutConfig) (baseX baseY : ℚ) :
    List LayoutBox :=
  ((sortBy nameLe nodes).foldl
    (flowStep baseX cfg.padding cfg.columnWidth cfg.methodNodeWidth cfg.methodNodeHeight)
    ⟨baseX + cfg.padding, baseY + cfg.padding, 0, []⟩).acc

/-- Middle row state: running x/y plus the boxes laid out so far. -/
structure MidState where
  currentX : ℚ
  currentY : ℚ
  acc : List LayoutBox
deriving DecidableEq, Repr

/-- Total stack height of a class-with-methods group. -/
def groupStackH (cfg : LayoutConfig) (g : ClassWithMethods) : ℚ :=
  cfg.classNodeHeight + (g.methods.length : ℚ) * (cfg.methodNodeHeight + cfg.padding / 4)

/-- Starting position of a group: advance to a fresh in-segment column when
the stack is taller than the row or does not fit the remaining vertical
space. -/
def midGroupPos (cfg : LayoutConfig) (baseY : ℚ) (st : MidState) (g : ClassWithMethods) :
    ℚ × ℚ :=
  if groupStackH cfg g > cfg.rowHeight - cfg.padding * 2 then
    (st.currentX + max cfg.classNodeWidth cfg.methodNodeWidth + cfg.padding,
     baseY + cfg.padding)
  else if st.currentY + groupStackH cfg g > baseY + cfg.rowHeight - cfg.padding then
    (st.currentX + max cfg.classNodeWidth cfg.methodNodeWidth + cfg.padding,
     baseY + cfg.padding)
  else (st.currentX, st.currentY)

/-- Stack the group's method boxes below the class box. -/
def methodFold (cfg : LayoutConfig) (cx : ℚ) (start : ℚ × List LayoutBox)
    (ms : List NodeData) : ℚ × List LayoutBox :=
  ms.foldl
    (fun p m =>
      (p.1 + cfg.methodNodeHeight + cfg.padding / 4,
       p.2 ++ [⟨m, cx, p.1, cfg.methodNodeWidth, cfg.methodNodeHeight⟩]))
    start

/-- Post-group bookkeeping: advance y; overflow pushes to a fresh column. -/
def midAfterGroup (cfg : LayoutConfig) (baseY cx1 : ℚ) (p : ℚ × List LayoutBox) : MidState :=
  if p.1 + cfg.padding / 2 > baseY + cfg.rowHeight - cfg.padding - cfg.classNodeHeight then
    { currentX := cx1 + max cfg.classNodeWidth cfg.methodNodeWidth + cfg.padding
      currentY := baseY + cfg.padding
      acc := p.2 }
  else { currentX := cx1, currentY := p.1 + cfg.padding / 2, acc := p.2 }

def midGroupStep (cfg : LayoutConfig) (baseY : ℚ) (st : MidState) (g : ClassWithMethods) :
    MidState :=
  midAfterGroup cfg baseY (midGroupPos cfg baseY st g).1
    (methodFold cfg (midGroupPos cfg baseY st g).1
      ((midGroupPos cfg baseY st g).2 + cfg.classNodeHeight + cfg.padding / 4,
       st.acc ++ [⟨g.classNode, (midGroupPos cfg baseY st g).1, (midGroupPos cfg baseY st g).2,
         cfg.classNodeWidth, cfg.classNodeHeight⟩])
      g.methods)

def orphanPlace (cfg : LayoutConfig) (st : MidState) (n : NodeData) : MidState :=
  { currentX := st.currentX
    currentY := st.currentY + cfg.structWithMethodsBoxHeight + cfg.padding / 2
    acc := st.acc ++ [⟨n, st.currentX, st.currentY,
      cfg.structWithMethodsBoxWidth, cfg.structWithMethodsBoxHeight⟩] }

def orphanStep (cfg : LayoutConfig) (baseY : ℚ) (st : MidState) (n : NodeData) : MidState :=
  orphanPlace cfg
    (if st.currentY + cfg.structWithMethodsBoxHeight > baseY + cfg.rowHeight - cfg.padding then
      { st with currentX := st.currentX + cfg.structWithMethodsBoxWidth + cfg.padding
                currentY := baseY + cfg.padding }
     else st) n

def layoutMiddleRow (nodes : List NodeData) (cfg : LayoutConfig) (baseX baseY : ℚ) :
    List LayoutBox :=
  ((sortBy nameLe (groupClassesWithMethods nodes).orphanNodes).foldl (orphanStep cfg baseY)
    ((groupClassesWithMethods nodes).groups.foldl (midGroupStep cfg baseY)
      ⟨baseX + cfg.padding, baseY + cfg.padding, []⟩)).acc

/-- `layoutNodesInSegment`: dispatch on the row part of the segment.  The
source destructures `segment.split('-')` and tests `row === 'top'` /
`row === 'middle'` with a final `else`, so the `tests` row takes the
bottom-row branch. -/
def layoutNodesInSegment (nodes : List NodeData) (segment : GridSegment)
    (cfg : LayoutConfig) : List LayoutBox :=
  match segment.2 with
  | .top => layoutTopRow nodes cfg (segmentBaseX cfg segment.1) (segmentBaseY cfg segment.2)
  | .middle =>
    layoutMiddleRow nodes cfg (segmentBaseX cfg segment.1) (segmentBaseY cfg segment.2)
  | _ => layoutBottomRow nodes cfg (segmentBaseX cfg segment.1) (segmentBaseY cfg segment.2)

/-- The 16 segments in the source's initialization order. -/
def allSegments : List GridSegment :=
  [(.left, .top), (.left, .middle), (.left, .bottom), (.left, .tests),
   (.middle, .top), (.middle, .middle), (.middle, .bottom), (.middle, .tests),
   (.right, .top), (.right, .middle), (.right, .bottom), (.right, .tests),
   (.gateway, .top), (.gateway, .middle), (.gateway, .bottom), (.gateway, .tests)]

/-- `createGridLayout`: classify, lay out each segment, concatenate. -/
def createGridLayout (nodes : List NodeData) (cfg : LayoutConfig) : List LayoutBox :=
  (allSegments.map
    (fun s => layoutNodesInSegment (categorizeNodesBySegment nodes s) s cfg)).flatten

/-! ## Column-width allocator (`gridLayoutAlgorithm.ts`) -/

inductive ColumnWidth
  | oneFr
  | twoThirdsFr
  | oneThirdFr
deriving DecidableEq, Repr

structure ColumnStats where
  column : Col
  totalNodes : ℕ
  dataStructNodes : ℕ
  classNodes : ℕ
  freeFunctionNodes : ℕ
  testNodes : ℕ
  maxNodesInAnyRow : ℕ
deriving DecidableEq, Repr

def calculateColumnStats (column : Col) (nodesByRow : GridSegment → List NodeData) :
    ColumnStats :=
  { column := column
    dataStructNodes := (nodesByRow (column, .top)).length
    classNodes := (nodesByRow (column, .middle)).length
    freeFunctionNodes := (nodesByRow (column, .bottom)).length
    testNodes := (nodesByRow (column, .tests)).length
    totalNodes := (nodesByRow (column, .top)).length + (nodesByRow (column, .middle)).length +
      (nodesByRow (column, .bottom)).length + (nodesByRow (column, .tests)).length
    maxNodesInAnyRow := max (max (nodesByRow (column, .top)).length
      (nodesByRow (column, .middle)).length)
      (max (nodesByRow (column, .bottom)).length (nodesByRow (column, .tests)).length) }

/-- `determineColumnWidth` (the `allStats` parameter is unused in the
source as well). -/
def determineColumnWidth (stats : ColumnStats) (allStats : List ColumnStats) : ColumnWidth :=
  if stats.column = .gateway then .oneThirdFr
  else if stats.totalNodes = 0 then .oneThirdFr
  else .oneFr

structure GridLayoutConfig where
  leftColumnWidth : ColumnWidth
  middleColumnWidth : ColumnWidth
  rightColumnWidth : ColumnWidth
  gatewayColumnWidth : ColumnWidth
deriving DecidableEq, Repr

def calculateGridLayout (nodesBySegment : GridSegment → List NodeData) : GridLayoutConfig :=
  { leftColumnWidth := determineColumnWidth (calculateColumnStats .left nodesBySegment)
      [calculateColumnStats .left nodesBySegment, calculateColumnStats .middle nodesBySegment,
       calculateColumnStats .right nodesBySegment, calculateColumnStats .gateway nodesBySegment]
    middleColumnWidth := determineColumnWidth (calculateColumnStats .middle nodesBySegment)
      [calculateColumnStats .left nodesBySegment, calculateColumnStats .middle nodesBySegment,
       calculateColumnStats .right nodesBySegment, calculateColumnStats .gateway nodesBySegment]
    rightColumnWidth := determineColumnWidth (calculateColumnStats .right nodesBySegment)
      [calculateColumnStats .left nodesBySegment, calculateColumnStats .middle nodesBySegment,
       calculateColumnStats .right nodesBySegment, calculateColumnStats .gateway nodesBySegment]
    gatewayColumnWidth := .oneThirdFr }

/-! ## Concrete sample data used by witnesses and counterexamples -/

/-- Scenario C's node: method-typed, id with pipe markers, test filename. -/
def scenarioCNode : NodeData :=
  { id := "crate::x|class_struct::Y|method::z", type := "method", name := "z"
    filename := some "tests/y_test.rs" }

/-- A plain service-layer struct node. -/
def sampleStructNode : NodeData :=
  { id := "crate::a|struct::S", type := "struct", name := "S"
    filename := some "src/svc/s.rs" }

/-! ## C2 — classification partition -/

/-- C2: `categorizeNodesBySegment` has exactly the 16 fixed segment keys
(the bucket map is total on the 16-element segment type, enumerated by
`allSegments`), buckets are pairwise disjoint, every non-crate input node
lands in exactly one bucket, and a node appears in some bucket iff it is a
non-crate input node (crate nodes are dropped). -/
theorem claim_C2 (nodes : List NodeData) :
    (allSegments.Nodup ∧ allSegments.length = 16 ∧ ∀ s : GridSegment, s ∈ allSegments) ∧
    (∀ s₁ s₂ : GridSegment, s₁ ≠ s₂ → ∀ n,
      n ∈ categorizeNodesBySegment nodes s₁ → n ∉ categorizeNodesBySegment nodes s₂) ∧
    (∀ n ∈ nodes, ¬isCrate n → ∃! s : GridSegment, n ∈ categorizeNodesBySegment nodes s) ∧
    (∀ n, (∃ s, n ∈ categorizeNodesBySegment nodes s) ↔ n ∈ nodes ∧ ¬isCrate n) := by
  refine ⟨⟨by decide, by decide, ?_⟩, ?_, ?_, ?_⟩
  · intro s
    obtain ⟨c, r⟩ := s
    cases c <;> cases r <;> decide
  · intro s₁ s₂ hne n h1 h2
    rw [mem_categorize] at h1 h2
    exact hne (h1.2.2 ▸ h2.2.2)
  · intro n hn hcr
    refine ⟨segmentOf n, (mem_categorize nodes _ n).mpr ⟨hn, hcr, rfl⟩, ?_⟩
    intro s hs
    exact ((mem_categorize nodes s n).mp hs).2.2.symm
  · intro n
    constructor
    · rintro ⟨s, hs⟩
      have := (mem_categorize nodes s n).mp hs
      exact ⟨this.1, this.2.1⟩
    · rintro ⟨hn, hcr⟩
      exact ⟨segmentOf n, (mem_categorize nodes _ n).mpr ⟨hn, hcr, rfl⟩⟩

theorem claim_C2_witness :
    ∃! s : GridSegment, sampleStructNode ∈ categorizeNodesBySegment [sampleStructNode] s :=
  (claim_C2 [sampleStructNode]).2.2.1 sampleStructNode (by decide) (by decide)

/-! ## C6 — `tests/` paths force the tests row -/

/-- C6: any node whose lower-cased path contains `tests/` is classified
into the tests row by the row-selection logic, whatever its type tag; in
particular Scenario C's method node (id
`crate::x|class_struct::Y|method::z`, filename `tests/y_test.rs`) lands in
the `middle-tests` bucket. -/
theorem claim_C6 :
    (∀ n : NodeData, strContains (lowerStr (n.filename.getD "")) "tests/" = true →
      segRow n = Row.tests) ∧
    categorizeNodesBySegment [scenarioCNode] (Col.middle, Row.tests) = [scenarioCNode] := by
  constructor
  · intro n h
    simp [segRow, isTestNode, h]
  · decide

theorem claim_C6_witness :
    strContains (lowerStr (scenarioCNode.filename.getD "")) "tests/" = true ∧
      segRow scenarioCNode = Row.tests :=
  ⟨by decide, claim_C6.1 scenarioCNode (by decide)⟩

/-! ## C7 — column-width allocation -/

/-- C7: for any per-segment statistics input, `determineColumnWidth` gives
the gateway column the narrowest weight (`1/3fr`) unconditionally; gives a
non-gateway column the narrowest weight when its four per-row node counts
sum to zero; and gives every other column the equal fill weight (`1fr`). -/
theorem claim_C7 (nodesByRow : GridSegment → List NodeData) (allStats : List ColumnStats)
    (c : Col) :
    determineColumnWidth (calculateColumnStats Col.gateway nodesByRow) allStats =
      ColumnWidth.oneThirdFr ∧
    (c ≠ Col.gateway →
      ((nodesByRow (c, Row.top)).length + (nodesByRow (c, Row.middle)).length +
          (nodesByRow (c, Row.bottom)).length + (nodesByRow (c, Row.tests)).length = 0 →
        determineColumnWidth (calculateColumnStats c nodesByRow) allStats =
          ColumnWidth.oneThirdFr)) ∧
    (c ≠ Col.gateway →
      ((nodesByRow (c, Row.top)).length + (nodesByRow (c, Row.middle)).length +
          (nodesByRow (c, Row.bottom)).length + (nodesByRow (c, Row.tests)).length ≠ 0 →
        determineColumnWidth (calculateColumnStats c nodesByRow) allStats =
          ColumnWidth.oneFr)) := by
  refine ⟨by simp [determineColumnWidth, calculateColumnStats], ?_, ?_⟩
  · intro hc hz
    simp [determineColumnWidth, calculateColumnStats, hc, hz]
  · intro hc hz
    simp [determineColumnWidth, calculateColumnStats, hc, hz]

theorem claim_C7_witness :
    determineColumnWidth (calculateColumnStats Col.gateway (fun _ => [])) [] =
      ColumnWidth.oneThirdFr ∧
    determineColumnWidth (calculateColumnStats Col.left (fun _ => [])) [] =
      ColumnWidth.oneThirdFr :=
  ⟨(claim_C7 (fun _ => []) [] Col.left).1,
   (claim_C7 (fun _ => []) [] Col.left).2.1 (by decide) (by decide)⟩

/-! ## C5 — Scenario D (shelf packing of two 50×30 items into width 60) -/

/-- C5 counterexample: with the default padding 3, the second item is
placed at `y = 36`, not at `firstItemHeight + padding = 33` as claimed:
the first shelf itself already starts at `y = padding`. -/
theorem claim_C5_counterexample :
    ((packItems [⟨"a", 50, 30⟩, ⟨"b", 50, 30⟩] 60 {}).items.map fun pk => (pk.x, pk.y)) =
      [(3, 3), (3, 36)] ∧ ((36 : ℚ) ≠ 30 + 3) := by
  constructor
  · norm_num [packItems, shelfRun, shelfSorted, resolveSortByHeight, resolvePadding,
      sortBy, List.insertionSort, List.orderedInsert, shelfStep, placeOnShelves]
  · norm_num

/-- C5 amended: the second item does not fit on the first shelf
(`53 + 53 > 60` with the padded widths) and is placed on a new shelf at
`x = padding`, `y = firstItemHeight + 2·padding` (the initial `padding`
offset of the first shelf plus the padded first-item height). -/
theorem claim_C5_amended :
    (packItems [⟨"a", 50, 30⟩, ⟨"b", 50, 30⟩] 60 {}).items =
      [⟨⟨"a", 50, 30⟩, 3, 3⟩, ⟨⟨"b", 50, 30⟩, 3, 36⟩] ∧
    resolvePadding ({} : PackOptions).padding = 3 ∧
    ((36 : ℚ) = 30 + 2 * 3) ∧
    ¬(((50 : ℚ) + 3) + (50 + 3) ≤ 60) := by
  refine ⟨?_, by norm_num [resolvePadding], by norm_num, by norm_num⟩
  norm_num [packItems, shelfRun, shelfSorted, resolveSortByHeight, resolvePadding,
    sortBy, List.insertionSort, List.orderedInsert, shelfStep, placeOnShelves]

/-! ## C3 — class–method association -/

def classCNode : NodeData :=
  { id := "crate::a|class_struct::C", type := "class_struct", name := "C"
    filename := some "src/svc/c.rs" }

def methodFNode : NodeData :=
  { id := "crate::a|class_struct::C|method::f", type := "method", name := "f"
    filename := some "src/infra/f.rs" }

def includesEdgeCF : Edge :=
  { fromId := "crate::a|class_struct::C", toId := "crate::a|class_struct::C|method::f"
    type := "includes" }

theorem cm_fold_mem (allNodes : List NodeData) (edges : List Edge) :
    ∀ (acc : String → List NodeData) (k : String) (m : NodeData),
      m ∈ edges.foldl (cmEdgeStep allNodes) acc k →
      m ∈ acc k ∨ (m ∈ allNodes ∧ ∃ e ∈ edges, e.type = "includes" ∧
        strContains e.fromId "class_struct::" = true ∧
        strContains e.toId "|method::" = true ∧ e.fromId = k ∧ e.toId = m.id) := by
  induction edges with
  | nil => intro acc k m hm; exact Or.inl hm
  | cons e rest ih =>
    intro acc k m hm
    rcases ih _ k m hm with hacc | ⟨hmem, e', he', rest'⟩
    · by_cases hguard : e.type = "includes" ∧ strContains e.fromId "class_struct::" = true ∧
          strContains e.toId "|method::" = true
      · have hguardB : (e.type = "includes" && strContains e.fromId "class_struct::" &&
            strContains e.toId "|method::") = true := by
          simp [hguard.1, hguard.2.1, hguard.2.2]
        by_cases hk : k = e.fromId
        · subst hk
          rw [cmEdgeStep, if_pos hguardB, if_pos rfl] at hacc
          match hfind : allNodes.find? (fun n => n.id = e.toId) with
          | some mn =>
            rw [hfind] at hacc
            rcases List.mem_append.mp hacc with h | h
            · exact Or.inl h
            · have hmn := List.mem_singleton.mp h
              subst hmn
              refine Or.inr ⟨List.mem_of_find?_eq_some hfind, e, List.mem_cons_self e rest,
                hguard.1, hguard.2.1, hguard.2.2, rfl, ?_⟩
              have := List.find?_some hfind
              exact (of_decide_eq_true this).symm
          | none =>
            rw [hfind] at hacc
            exact Or.inl hacc
        · rw [cmEdgeStep, if_pos hguardB, if_neg hk] at hacc
          exact Or.inl hacc
      · have hguardB : (e.type = "includes" && strContains e.fromId "class_struct::" &&
            strContains e.toId "|method::") = false := by
          rcases Decidable.not_and_iff_or_not.mp hguard with h | h'
          · simp [h]
          · rcases Decidable.not_and_iff_or_not.mp h' with h | h
            · simp [h]
            · simp [h]
        rw [cmEdgeStep, if_neg (by simp [hguardB])] at hacc
        exact Or.inl hacc
    · exact Or.inr ⟨hmem, e', List.mem_cons_of_mem e he', rest'⟩

/-- C3 counterexample: the geometric segment layout does not use
`includes` edges at all.  For the class `C` alone in a segment list, the
layout's grouping attaches no methods, while the edge-based reference
mapping over the full catalog attaches `f` (which even satisfies the
id-prefix relation) — so the layout's mapping differs from the edge-derived
mapping, and a method in another segment is dropped rather than attached. -/
theorem claim_C3_counterexample :
    (groupClassesWithMethods [classCNode]).groups = [⟨classCNode, []⟩] ∧
    classStructMethodsMap [includesEdgeCF] [classCNode, methodFNode] classCNode.id =
      [methodFNode] ∧
    getParentClassId methodFNode = some classCNode.id := by
  refine ⟨?_, ?_, by decide⟩ <;> decide

/-- C3 amended: the cited layout code (`groupClassesWithMethods`) computes
class–method association from the pipe-delimited id structure over the
segment-filtered node list only: a group's methods are exactly the
method-typed nodes of that same list whose id minus its final
pipe-delimited part equals the class id.  The edge-based association over
the full (not segment-filtered) node/edge catalog is a separate mechanism
(the menu component's `classStructMethodsMap`), whose entries are resolved
against the entire catalog from `includes` edges with the class/struct and
method id markers. -/
theorem claim_C3_amended (nodes : List NodeData) (edges : List Edge)
    (allNodes : List NodeData) (g : ClassWithMethods)
    (hg : g ∈ (groupClassesWithMethods nodes).groups) :
    (∀ m, m ∈ g.methods ↔
      m ∈ nodes ∧ isMethod m = true ∧ getParentClassId m = some g.classNode.id) ∧
    (∀ k m, m ∈ classStructMethodsMap edges allNodes k →
      m ∈ allNodes ∧ ∃ e ∈ edges, e.type = "includes" ∧
        strContains e.fromId "class_struct::" = true ∧
        strContains e.toId "|method::" = true ∧ e.fromId = k ∧ e.toId = m.id) := by
  constructor
  · exact fun m => mem_methods_of_group nodes g hg m
  · intro k m hm
    rw [classStructMethodsMap, mem_sortBy] at hm
    rcases cm_fold_mem allNodes edges _ k m hm with h | h
    · exact absurd h (List.not_mem_nil m)
    · exact h

theorem claim_C3_amended_witness :
    (∀ m, m ∈ (⟨classCNode, []⟩ : ClassWithMethods).methods ↔
      m ∈ [classCNode] ∧ isMethod m = true ∧ getParentClassId m = some classCNode.id) ∧
    (∀ k m, m ∈ classStructMethodsMap ([] : List Edge) ([] : List NodeData) k →
      m ∈ ([] : List NodeData) ∧ ∃ e ∈ ([] : List Edge), e.type = "includes" ∧
        strContains e.fromId "class_struct::" = true ∧
        strContains e.toId "|method::" = true ∧ e.fromId = k ∧ e.toId = m.id) :=
  claim_C3_amended [classCNode] [] [] ⟨classCNode, []⟩ (by decide)

/-! ## C4 — segment base origins -/

def shiftBox (dx dy : ℚ) (b : LayoutBox) : LayoutBox :=
  { b with x := b.x + dx, y := b.y + dy }

def shiftFlow (dx dy : ℚ) (st : FlowState) : FlowState :=
  { currentX := st.currentX + dx, currentY := st.currentY + dy
    maxHeightInRow := st.maxHeightInRow, acc := st.acc.map (shiftBox dx dy) }

def shiftMid (dx dy : ℚ) (st : MidState) : MidState :=
  { currentX := st.currentX + dx, currentY := st.currentY + dy
    acc := st.acc.map (shiftBox dx dy) }

/-- The row branch of `layoutNodesInSegment` evaluated at base origin `(0, 0)`. -/
def layoutRowAtOrigin (nodes : List NodeData) (cfg : LayoutConfig) : Row → List LayoutBox
  | .top => layoutTopRow nodes cfg 0 0
  | .middle => layoutMiddleRow nodes cfg 0 0
  | _ => layoutBottomRow nodes cfg 0 0

theorem flowStep_shift (dx dy pad colW w h : ℚ) (st : FlowState) (n : NodeData) :
    flowStep dx pad colW w h (shiftFlow dx dy st) n =
      shiftFlow dx dy (flowStep 0 pad colW w h st n) := by
  have hcond : (shiftFlow dx dy st).currentX + w > dx + colW - pad ↔
      st.currentX + w > 0 + colW - pad := by
    simp only [shiftFlow]
    constructor <;> intro hlt <;> linarith
  by_cases hc : st.currentX + w > 0 + colW - pad
  · rw [flowStep, if_pos (hcond.mpr hc), flowStep, if_pos hc]
    simp [flowPlace, shiftFlow, shiftBox, add_comm, add_left_comm, add_assoc]
  · rw [flowStep, if_neg (fun hh => hc (hcond.mp hh)), flowStep, if_neg hc]
    simp [flowPlace, shiftFlow, shiftBox, add_comm, add_left_comm, add_assoc]

theorem flowFold_shift (l : List NodeData) (dx dy pad colW w h : ℚ) (st : FlowState) :
    l.foldl (flowStep dx pad colW w h) (shiftFlow dx dy st) =
      shiftFlow dx dy (l.foldl (flowStep 0 pad colW w h) st) := by
  induction l generalizing st with
  | nil => rfl
  | cons n l ih => rw [List.foldl_cons, List.foldl_cons, flowStep_shift, ih]

theorem layoutTopRow_shift (nodes : List NodeData) (cfg : LayoutConfig) (dx dy : ℚ) :
    layoutTopRow nodes cfg dx dy = (layoutTopRow nodes cfg 0 0).map (shiftBox dx dy) := by
  have hinit : (⟨dx + cfg.padding, dy + cfg.padding, 0, []⟩ : FlowState) =
      shiftFlow dx dy ⟨0 + cfg.padding, 0 + cfg.padding, 0, []⟩ := by
    simp [shiftFlow, add_comm]
  rw [layoutTopRow, hinit, flowFold_shift]
  rfl

theorem layoutBottomRow_shift (nodes : List NodeData) (cfg : LayoutConfig) (dx dy : ℚ) :
    layoutBottomRow nodes cfg dx dy = (layoutBottomRow nodes cfg 0 0).map (shiftBox dx dy) := by
  have hinit : (⟨dx + cfg.padding, dy + cfg.padding, 0, []⟩ : FlowState) =
      shiftFlow dx dy ⟨0 + cfg.padding, 0 + cfg.padding, 0, []⟩ := by
    simp [shiftFlow, add_comm]
  rw [layoutBottomRow, hinit, flowFold_shift]
  rfl

theorem methodFold_shift (cfg : LayoutConfig) (ms : List NodeData) (dx dy cx : ℚ) :
    ∀ (a : ℚ) (l : List LayoutBox),
      methodFold cfg (cx + dx) (a + dy, l.map (shiftBox dx dy)) ms =
        ((methodFold cfg cx (a, l) ms).1 + dy,
         (methodFold cfg cx (a, l) ms).2.map (shiftBox dx dy)) := by
  induction ms with
  | nil => intro a l; rfl
  | cons m ms ih =>
    intro a l
    rw [methodFold, List.foldl_cons, methodFold, List.foldl_cons]
    have step : ((a + dy + cfg.methodNodeHeight + cfg.padding / 4 : ℚ),
        l.map (shiftBox dx dy) ++
          ([⟨m, cx + dx, a + dy, cfg.methodNodeWidth, cfg.methodNodeHeight⟩] :
            List LayoutBox)) =
        ((a + cfg.methodNodeHeight + cfg.padding / 4 : ℚ) + dy,
         (l ++ ([⟨m, cx, a, cfg.methodNodeWidth, cfg.methodNodeHeight⟩] :
            List LayoutBox)).map (shiftBox dx dy)) := by
      simp [shiftBox, add_comm, add_left_comm, add_assoc]
    rw [step]
    exact ih _ _

theorem midAfterGroup_shift (cfg : LayoutConfig) (dx dy cx1 a : ℚ) (l : List LayoutBox) :
    midAfterGroup cfg dy (cx1 + dx) (a + dy, l.map (shiftBox dx dy)) =
      shiftMid dx dy (midAfterGroup cfg 0 cx1 (a, l)) := by
  rw [midAfterGroup, midAfterGroup]
  dsimp only
  split_ifs with h1 h2 h3 <;>
    first
      | (exfalso; linarith)
      | simp [shiftMid, add_comm, add_left_comm, add_assoc]

theorem midGroupPos_shift (cfg : LayoutConfig) (dx dy : ℚ) (st : MidState)
    (g : ClassWithMethods) :
    midGroupPos cfg dy (shiftMid dx dy st) g =
      ((midGroupPos cfg 0 st g).1 + dx, (midGroupPos cfg 0 st g).2 + dy) := by
  rw [midGroupPos, midGroupPos]
  dsimp only [shiftMid]
  split_ifs with h1 h2 h3 <;>
    first
      | (exfalso; linarith)
      | simp [add_comm, add_left_comm, add_assoc]

theorem midGroupStep_shift (cfg : LayoutConfig) (dx dy : ℚ) (st : MidState)
    (g : ClassWithMethods) :
    midGroupStep cfg dy (shiftMid dx dy st) g = shiftMid dx dy (midGroupStep cfg 0 st g) := by
  simp only [midGroupStep, midGroupPos_shift]
  have hstart : ((midGroupPos cfg 0 st g).2 + dy + cfg.classNodeHeight + cfg.padding / 4,
      (shiftMid dx dy st).acc ++
        ([⟨g.classNode, (midGroupPos cfg 0 st g).1 + dx, (midGroupPos cfg 0 st g).2 + dy,
          cfg.classNodeWidth, cfg.classNodeHeight⟩] : List LayoutBox)) =
      (((midGroupPos cfg 0 st g).2 + cfg.classNodeHeight + cfg.padding / 4 : ℚ) + dy,
       (st.acc ++ ([⟨g.classNode, (midGroupPos cfg 0 st g).1, (midGroupPos cfg 0 st g).2,
         cfg.classNodeWidth, cfg.classNodeHeight⟩] : List LayoutBox)).map
           (shiftBox dx dy)) := by
    simp [shiftMid, shiftBox, add_comm, add_left_comm, add_assoc]
  rw [hstart, methodFold_shift]
  exact midAfterGroup_shift cfg dx dy _ _ _

theorem orphanStep_shift (cfg : LayoutConfig) (dx dy : ℚ) (st : MidState) (n : NodeData) :
    orphanStep cfg dy (shiftMid dx dy st) n = shiftMid dx dy (orphanStep cfg 0 st n) := by
  have hcond : (shiftMid dx dy st).currentY + cfg.structWithMethodsBoxHeight >
      dy + cfg.rowHeight - cfg.padding ↔
      st.currentY + cfg.structWithMethodsBoxHeight > 0 + cfg.rowHeight - cfg.padding := by
    simp only [shiftMid]
    constructor <;> intro h <;> linarith
  by_cases h : st.currentY + cfg.structWithMethodsBoxHeight > 0 + cfg.rowHeight - cfg.padding
  · rw [orphanStep, if_pos (hcond.mpr h), orphanStep, if_pos h]
    simp [orphanPlace, shiftMid, shiftBox, add_comm, add_left_comm, add_assoc]
  · rw [orphanStep, if_neg (fun hh => h (hcond.mp hh)), orphanStep, if_neg h]
    simp [orphanPlace, shiftMid, shiftBox, add_comm, add_left_comm, add_assoc]

theorem midFold_shift (gs : List ClassWithMethods) (cfg : LayoutConfig) (dx dy : ℚ)
    (st : MidState) :
    gs.foldl (midGroupStep cfg dy) (shiftMid dx dy st) =
      shiftMid dx dy (gs.foldl (midGroupStep cfg 0) st) := by
  induction gs generalizing st with
  | nil => rfl
  | cons g gs ih => rw [List.foldl_cons, List.foldl_cons, midGroupStep_shift, ih]

theorem orphanFold_shift (ns : List NodeData) (cfg : LayoutConfig) (dx dy : ℚ)
    (st : MidState) :
    ns.foldl (orphanStep cfg dy) (shiftMid dx dy st) =
      shiftMid dx dy (ns.foldl (orphanStep cfg 0) st) := by
  induction ns generalizing st with
  | nil => rfl
  | cons n ns ih => rw [List.foldl_cons, List.foldl_cons, orphanStep_shift, ih]

theorem layoutMiddleRow_shift (nodes : List NodeData) (cfg : LayoutConfig) (dx dy : ℚ) :
    layoutMiddleRow nodes cfg dx dy = (layoutMiddleRow nodes cfg 0 0).map (shiftBox dx dy) := by
  have hinit : (⟨dx + cfg.padding, dy + cfg.padding, []⟩ : MidState) =
      shiftMid dx dy ⟨0 + cfg.padding, 0 + cfg.padding, []⟩ := by
    simp [shiftMid, add_comm]
  rw [layoutMiddleRow, hinit, midFold_shift, orphanFold_shift]
  rfl

theorem layoutNodesInSegment_shift (nodes : List NodeData) (seg : GridSegment)
    (cfg : LayoutConfig) :
    layoutNodesInSegment nodes seg cfg =
      (layoutRowAtOrigin nodes cfg seg.2).map
        (shiftBox (segmentBaseX cfg seg.1) (segmentBaseY cfg seg.2)) := by
  obtain ⟨c, r⟩ := seg
  cases r with
  | top => exact layoutTopRow_shift nodes cfg _ _
  | middle => exact layoutMiddleRow_shift nodes cfg _ _
  | bottom => exact layoutBottomRow_shift nodes cfg _ _
  | tests => exact layoutBottomRow_shift nodes cfg _ _

/-- C4 counterexample: the gateway column's base x does NOT differ from the
right column's, nor does the tests row's base y differ from the bottom
row's.  With the default configuration, a one-node segment produces
identical (non-empty) layouts for `gateway-top` and `right-top`, with
x = 2·columnWidth + padding, and identical layouts for `middle-tests` and
`middle-bottom`, with y = 2·rowHeight + padding. -/
theorem claim_C4_counterexample :
    layoutNodesInSegment [sampleStructNode] (Col.gateway, Row.top) DEFAULT_LAYOUT_CONFIG =
      layoutNodesInSegment [sampleStructNode] (Col.right, Row.top) DEFAULT_LAYOUT_CONFIG ∧
    (layoutNodesInSegment [sampleStructNode] (Col.gateway, Row.top)
      DEFAULT_LAYOUT_CONFIG).map (fun b => b.x) = [2 * 600 + 20] ∧
    layoutNodesInSegment [sampleStructNode] (Col.middle, Row.tests) DEFAULT_LAYOUT_CONFIG =
      layoutNodesInSegment [sampleStructNode] (Col.middle, Row.bottom) DEFAULT_LAYOUT_CONFIG ∧
    (layoutNodesInSegment [sampleStructNode] (Col.middle, Row.tests)
      DEFAULT_LAYOUT_CONFIG).map (fun b => b.y) = [2 * 400 + 20] := by
  refine ⟨rfl, ?_, rfl, ?_⟩
  · norm_num [layoutNodesInSegment, layoutTopRow, topRowOrdered, segmentBaseX, segmentBaseY,
      DEFAULT_LAYOUT_CONFIG, sortBy, List.insertionSort, List.orderedInsert, flowStep,
      flowPlace, sampleStructNode, getNodeFolder, strJoin, splitOnPred]
  · norm_num [layoutNodesInSegment, layoutBottomRow, segmentBaseX, segmentBaseY,
      DEFAULT_LAYOUT_CONFIG, sortBy, List.insertionSort, List.orderedInsert, flowStep,
      flowPlace, sampleStructNode]

/-- C4 amended: segment layout does compute every box's position relative
to the segment's base origin (column index × column width, row index × row
height), but the indices are not all distinct: left/middle/right map to
0/1/2 while gateway reuses 2 (same base x as right), and top/middle/bottom
map to 0/1/2 while tests reuses 2 (same base y as bottom). -/
theorem claim_C4_amended (cfg : LayoutConfig) (nodes : List NodeData) (seg : GridSegment) :
    segmentBaseX cfg Col.left = 0 ∧
    segmentBaseX cfg Col.middle = cfg.columnWidth ∧
    segmentBaseX cfg Col.right = cfg.columnWidth * 2 ∧
    segmentBaseX cfg Col.gateway = cfg.columnWidth * 2 ∧
    segmentBaseY cfg Row.top = 0 ∧
    segmentBaseY cfg Row.middle = cfg.rowHeight ∧
    segmentBaseY cfg Row.bottom = cfg.rowHeight * 2 ∧
    segmentBaseY cfg Row.tests = cfg.rowHeight * 2 ∧
    layoutNodesInSegment nodes seg cfg =
      (layoutRowAtOrigin nodes cfg seg.2).map
        (shiftBox (segmentBaseX cfg seg.1) (segmentBaseY cfg seg.2)) :=
  ⟨rfl, rfl, rfl, rfl, rfl, rfl, rfl, rfl, layoutNodesInSegment_shift nodes seg cfg⟩

/-! ## C10 — unmatched methods are dropped from middle-row layout -/

theorem midAfterGroup_acc (cfg : LayoutConfig) (baseY cx1 : ℚ) (p : ℚ × List LayoutBox) :
    (midAfterGroup cfg baseY cx1 p).acc = p.2 := by
  rw [midAfterGroup]
  split_ifs <;> rfl

theorem mem_methodFold (cfg : LayoutConfig) (ms : List NodeData) :
    ∀ (cx : ℚ) (p : ℚ × List LayoutBox) (b : LayoutBox),
      b ∈ (methodFold cfg cx p ms).2 → b ∈ p.2 ∨ b.node ∈ ms := by
  induction ms with
  | nil => intro cx p b hb; exact Or.inl hb
  | cons m ms ih =>
    intro cx p b hb
    rw [methodFold, List.foldl_cons] at hb
    rcases ih cx _ b hb with h | h
    · rcases List.mem_append.mp h with h' | h'
      · exact Or.inl h'
      · right
        rw [List.mem_singleton.mp h']
        exact List.mem_cons_self m ms
    · exact Or.inr (List.mem_cons_of_mem m h)

theorem mem_midGroupStep (cfg : LayoutConfig) (baseY : ℚ) (st : MidState)
    (g : ClassWithMethods) (b : LayoutBox) (hb : b ∈ (midGroupStep cfg baseY st g).acc) :
    b ∈ st.acc ∨ b.node = g.classNode ∨ b.node ∈ g.methods := by
  rw [midGroupStep, midAfterGroup_acc] at hb
  rcases mem_methodFold cfg g.methods _ _ b hb with h | h
  · rcases List.mem_append.mp h with h' | h'
    · exact Or.inl h'
    · right; left
      rw [List.mem_singleton.mp h']
  · exact Or.inr (Or.inr h)

theorem mem_midFold (cfg : LayoutConfig) (baseY : ℚ) (gs : List ClassWithMethods) :
    ∀ (st : MidState) (b : LayoutBox), b ∈ (gs.foldl (midGroupStep cfg baseY) st).acc →
      b ∈ st.acc ∨ ∃ g ∈ gs, b.node = g.classNode ∨ b.node ∈ g.methods := by
  induction gs with
  | nil => intro st b hb; exact Or.inl hb
  | cons g gs ih =>
    intro st b hb
    rw [List.foldl_cons] at hb
    rcases ih _ b hb with h | ⟨g', hg', hcase⟩
    · rcases mem_midGroupStep cfg baseY st g b h with h' | h'
      · exact Or.inl h'
      · exact Or.inr ⟨g, List.mem_cons_self g gs, h'⟩
    · exact Or.inr ⟨g', List.mem_cons_of_mem g hg', hcase⟩

theorem mem_orphanStep (cfg : LayoutConfig) (baseY : ℚ) (st : MidState) (n : NodeData)
    (b : LayoutBox) (hb : b ∈ (orphanStep cfg baseY st n).acc) :
    b ∈ st.acc ∨ b.node = n := by
  rw [orphanStep] at hb
  by_cases h : st.currentY + cfg.structWithMethodsBoxHeight >
      baseY + cfg.rowHeight - cfg.padding
  · rw [if_pos h] at hb
    rcases List.mem_append.mp hb with h' | h'
    · exact Or.inl h'
    · right; rw [List.mem_singleton.mp h']
  · rw [if_neg h] at hb
    rcases List.mem_append.mp hb with h' | h'
    · exact Or.inl h'
    · right; rw [List.mem_singleton.mp h']

theorem mem_orphanFold (cfg : LayoutConfig) (baseY : ℚ) (ns : List NodeData) :
    ∀ (st : MidState) (b : LayoutBox), b ∈ (ns.foldl (orphanStep cfg baseY) st).acc →
      b ∈ st.acc ∨ b.node ∈ ns := by
  induction ns with
  | nil => intro st b hb; exact Or.inl hb
  | cons n ns ih =>
    intro st b hb
    rw [List.foldl_cons] at hb
    rcases ih _ b hb with h | h
    · rcases mem_orphanStep cfg baseY st n b h with h' | h'
      · exact Or.inl h'
      · exact Or.inr (h' ▸ List.mem_cons_self n ns)
    · exact Or.inr (List.mem_cons_of_mem n h)

theorem mem_layoutMiddleRow (nodes : List NodeData) (cfg : LayoutConfig) (bx bY : ℚ)
    (b : LayoutBox) (hb : b ∈ layoutMiddleRow nodes cfg bx bY) :
    (∃ g ∈ (groupClassesWithMethods nodes).groups, b.node = g.classNode ∨ b.node ∈ g.methods) ∨
      b.node ∈ (groupClassesWithMethods nodes).orphanNodes := by
  rw [layoutMiddleRow] at hb
  rcases mem_orphanFold cfg bY _ _ b hb with h | h
  · rcases mem_midFold cfg bY _ _ b h with h' | h'
    · exact absurd h' (List.not_mem_nil b)
    · exact Or.inl h'
  · exact Or.inr ((mem_sortBy _ _ _).mp h)

theorem not_class_and_method (n : NodeData) :
    isClassStruct n = true → isMethod n = true → False := by
  simp only [isClassStruct, isMethod, decide_eq_true_eq]
  intro h1 h2
  rw [h1] at h2
  exact absurd h2 (by decide)

/-- C10: in a middle-row segment, a method-typed node whose pipe-delimited
parent-class id matches no class_struct node of the same segment node list
appears nowhere in the layout output — it is silently dropped. -/
theorem claim_C10 (nodes : List NodeData) (seg : GridSegment) (cfg : LayoutConfig)
    (hrow : seg.2 = Row.middle) (m : NodeData) (hmeth : isMethod m = true)
    (horph : ∀ c ∈ nodes, isClassStruct c = true → getParentClassId m ≠ some c.id) :
    ∀ b ∈ layoutNodesInSegment nodes seg cfg, b.node ≠ m := by
  intro b hb heq
  obtain ⟨c, r⟩ := seg
  simp only at hrow
  subst hrow
  rw [layoutNodesInSegment] at hb
  rcases mem_layoutMiddleRow nodes cfg _ _ b hb with ⟨g, hg, hcase | hcase⟩ | h
  · obtain ⟨hmem, hcls, -⟩ := (mem_groups_iff nodes g).mp hg
    refine not_class_and_method g.classNode hcls ?_
    rw [← hcase, heq]
    exact hmeth
  · obtain ⟨hmem', -, hpid⟩ := (mem_methods_of_group nodes g hg b.node).mp hcase
    obtain ⟨hmem, hcls, -⟩ := (mem_groups_iff nodes g).mp hg
    exact horph g.classNode hmem hcls (heq ▸ hpid)
  · rw [groupClassesWithMethods] at h
    simp only [List.mem_filter] at h
    have := h.2
    rw [heq, hmeth] at this
    simp at this

theorem claim_C10_witness :
    isMethod methodFNode = true ∧
    ∀ b ∈ layoutNodesInSegment [methodFNode] (Col.middle, Row.middle) DEFAULT_LAYOUT_CONFIG,
      b.node ≠ methodFNode :=
  ⟨by decide, claim_C10 [methodFNode] (Col.middle, Row.middle) DEFAULT_LAYOUT_CONFIG rfl
    methodFNode (by decide) (by decide)⟩

/-! ## Packing correctness infrastructure -/

/-- The rectangle actually occupied by a packed item (finite height). -/
def itemRect (pk : PackedItem) : FreeRect :=
  ⟨pk.x, pk.y, pk.item.width, XQ.fin pk.item.height⟩

/-- Two packed items are disjoint in the sense of the source's
`rectanglesOverlap` helper. -/
def itemsDisjoint (a b : PackedItem) : Prop :=
  rectanglesOverlap (itemRect a) (itemRect b) = false

theorem itemsDisjoint_iff (a b : PackedItem) :
    itemsDisjoint a b ↔
      a.x + a.item.width ≤ b.x ∨ b.x + b.item.width ≤ a.x ∨
      a.y + a.item.height ≤ b.y ∨ b.y + b.item.height ≤ a.y := by
  simp only [itemsDisjoint, rectanglesOverlap, itemRect, XQ.leB, XQ.addQ]
  simp
  constructor
  · intro h
    rcases le_or_lt (a.x + a.item.width) b.x with h1 | h1
    · exact Or.inl h1
    rcases le_or_lt (b.x + b.item.width) a.x with h2 | h2
    · exact Or.inr (Or.inl h2)
    rcases le_or_lt (a.y + a.item.height) b.y with h3 | h3
    · exact Or.inr (Or.inr (Or.inl h3))
    exact Or.inr (Or.inr (Or.inr (h h1 h2 h3)))
  · intro h h1 h2 h3
    rcases h with h | h | h | h
    · linarith
    · linarith
    · linarith
    · exact h

theorem itemsDisjoint_symm (a b : PackedItem) (h : itemsDisjoint a b) : itemsDisjoint b a := by
  rw [itemsDisjoint_iff] at h ⊢
  tauto

/-- The shelves of a shelf-packer state form a vertical chain: consecutive,
positive-height strips from `y0` down to `yEnd`. -/
def ShelvesChain (y0 : ℚ) : List Shelf → ℚ → Prop
  | [], yEnd => yEnd = y0
  | s :: rest, yEnd => s.y = y0 ∧ 0 < s.height ∧ ShelvesChain (y0 + s.height) rest yEnd

theorem chain_le (l : List Shelf) : ∀ (y0 yEnd : ℚ), ShelvesChain y0 l yEnd → y0 ≤ yEnd := by
  induction l with
  | nil => intro y0 yEnd h; exact le_of_eq h.symm
  | cons s rest ih =>
    intro y0 yEnd h
    have := ih (y0 + s.height) yEnd h.2.2
    linarith [h.2.1]

theorem chain_mem (l : List Shelf) : ∀ (y0 yEnd : ℚ), ShelvesChain y0 l yEnd →
    ∀ s ∈ l, y0 ≤ s.y ∧ s.y + s.height ≤ yEnd ∧ 0 < s.height := by
  induction l with
  | nil => intro y0 yEnd _ s hs; exact absurd hs (List.not_mem_nil s)
  | cons t rest ih =>
    intro y0 yEnd h s hs
    rcases List.mem_cons.mp hs with rfl | hs'
    · have := chain_le rest (y0 + s.height) yEnd h.2.2
      exact ⟨le_of_eq h.1.symm, by rw [h.1]; linarith, h.2.1⟩
    · have := ih (y0 + t.height) yEnd h.2.2 s hs'
      exact ⟨by linarith [h.2.1, this.1], this.2.1, this.2.2⟩

theorem chain_pairwise (l : List Shelf) : ∀ (y0 yEnd : ℚ), ShelvesChain y0 l yEnd →
    l.Pairwise (fun a b => a.y + a.height ≤ b.y) := by
  induction l with
  | nil => intro _ _ _; exact List.Pairwise.nil
  | cons s rest ih =>
    intro y0 yEnd h
    refine List.Pairwise.cons ?_ (ih (y0 + s.height) yEnd h.2.2)
    intro t ht
    have := chain_mem rest (y0 + s.height) yEnd h.2.2 t ht
    rw [h.1]
    linarith [this.1]

theorem chain_snoc (l : List Shelf) : ∀ (y0 yEnd h w : ℚ), ShelvesChain y0 l yEnd → 0 < h →
    ShelvesChain y0 (l ++ [⟨yEnd, h, w⟩]) (yEnd + h) := by
  induction l with
  | nil =>
    intro y0 yEnd h w hc hh
    refine ⟨hc, hh, ?_⟩
    show yEnd + h = y0 + _
    rw [hc]
  | cons s rest ih =>
    intro y0 yEnd h w hc hh
    exact ⟨hc.1, hc.2.1, ih (y0 + s.height) yEnd h w hc.2.2 hh⟩

theorem chain_replace (pre : List Shelf) :
    ∀ (y0 yEnd : ℚ) (s s' : Shelf) (post : List Shelf),
      ShelvesChain y0 (pre ++ s :: post) yEnd → s'.y = s.y → s'.height = s.height →
      ShelvesChain y0 (pre ++ s' :: post) yEnd := by
  induction pre with
  | nil =>
    intro y0 yEnd s s' post hc hy hh
    refine ⟨by rw [hy, hc.1], by rw [hh]; exact hc.2.1, ?_⟩
    rw [hh]
    exact hc.2.2
  | cons t pre ih =>
    intro y0 yEnd s s' post hc hy hh
    exact ⟨hc.1, hc.2.1, ih (y0 + t.height) yEnd s s' post hc.2.2 hy hh⟩

theorem placeOnShelves_spec (cw iw ih : ℚ) (l : List Shelf) :
    ∀ (l' : List Shelf) (x y : ℚ),
      placeOnShelves cw iw ih l = some (l', x, y) →
      ∃ pre s post, l = pre ++ s :: post ∧
        l' = pre ++ { s with width := s.width + iw } :: post ∧
        s.width + iw ≤ cw ∧ ih ≤ s.height ∧ x = s.width ∧ y = s.y := by
  induction l with
  | nil =>
    intro l' x y h
    exact absurd h (by simp [placeOnShelves])
  | cons s rest ih2 =>
    intro l' x y h
    rw [placeOnShelves] at h
    by_cases hc : s.width + iw ≤ cw ∧ ih ≤ s.height
    · rw [if_pos hc] at h
      injection h with h'
      simp only [Prod.mk.injEq] at h'
      exact ⟨[], s, rest, rfl, h'.1.symm, hc.1, hc.2, h'.2.1.symm, h'.2.2.symm⟩
    · rw [if_neg hc] at h
      match hrec : placeOnShelves cw iw ih rest with
      | none =>
        rw [hrec] at h
        simp at h
      | some (rl, rx, ry) =>
        rw [hrec] at h
        simp only [Option.map, Option.some.injEq, Prod.mk.injEq] at h
        obtain ⟨pre, s0, post, heq, heq', hfit, hht, hx, hy⟩ := ih2 rl rx ry hrec
        refine ⟨s :: pre, s0, post, by simp [heq], ?_, hfit, hht, ?_, ?_⟩
        · rw [← h.1, heq']
          rfl
        · rw [← h.2.1, hx]
        · rw [← h.2.2, hy]

/-- Invariant of the shelf packer's state: shelves chain downward from the
initial `padding` offset to `currentY`; every packed item sits on a shelf
(same y, padded height within the shelf height); items claiming a shelf's y
are bounded by that shelf's running width; packed items are pairwise
disjoint. -/
structure SInv (cw p : ℚ) (st : ShelfState) : Prop where
  chain : ShelvesChain p st.shelves st.currentY
  tied : ∀ pk ∈ st.packed, ∃ s ∈ st.shelves, pk.y = s.y ∧ pk.item.height + p ≤ s.height ∧
    0 < pk.item.height ∧ 0 < pk.item.width
  rowBound : ∀ s ∈ st.shelves, ∀ pk ∈ st.packed, pk.y = s.y →
    pk.x + pk.item.width ≤ s.width
  disj : List.Pairwise itemsDisjoint st.packed

theorem shelfStep_none (cw p : ℚ) (st : ShelfState) (it : PackableItem)
    (h : placeOnShelves cw (it.width + p) (it.height + p) st.shelves = none) :
    shelfStep cw p st it =
      { shelves := st.shelves ++ [⟨st.currentY, it.height + p, it.width + p⟩]
        packed := st.packed ++ [⟨it, p, st.currentY⟩]
        currentY := st.currentY + (it.height + p) } := by
  rw [shelfStep, h]

theorem shelfStep_some (cw p : ℚ) (st : ShelfState) (it : PackableItem)
    (l' : List Shelf) (x y : ℚ)
    (h : placeOnShelves cw (it.width + p) (it.height + p) st.shelves = some (l', x, y)) :
    shelfStep cw p st it =
      { shelves := l', packed := st.packed ++ [⟨it, x, y⟩], currentY := st.currentY } := by
  rw [shelfStep, h]

theorem shelfStep_inv (cw p : ℚ) (hp : 0 ≤ p) (st : ShelfState) (it : PackableItem)
    (hw : 0 < it.width) (hh : 0 < it.height) (hst : SInv cw p st) :
    SInv cw p (shelfStep cw p st it) := by
  cases hplace : placeOnShelves cw (it.width + p) (it.height + p) st.shelves with
  | none =>
    rw [shelfStep_none cw p st it hplace]
    refine ⟨?_, ?_, ?_, ?_⟩
    · exact chain_snoc st.shelves p st.currentY (it.height + p) (it.width + p) hst.chain
        (by linarith)
    · intro pk hpk
      rcases List.mem_append.mp hpk with hold | hnew
      · obtain ⟨s, hs, hprops⟩ := hst.tied pk hold
        exact ⟨s, List.mem_append_left _ hs, hprops⟩
      · rw [List.mem_singleton.mp hnew]
        exact ⟨⟨st.currentY, it.height + p, it.width + p⟩,
          List.mem_append_right _ (List.mem_singleton_self _), rfl, le_refl _, hh, hw⟩
    · intro s hs pk hpk hy
      rcases List.mem_append.mp hs with hsold | hsnew
      · rcases List.mem_append.mp hpk with hold | hnew
        · exact hst.rowBound s hsold pk hold hy
        · exfalso
          obtain ⟨-, hle, hhpos⟩ := chain_mem st.shelves p st.currentY hst.chain s hsold
          rw [List.mem_singleton.mp hnew] at hy
          simp only at hy
          linarith [hy ▸ hle]
      · rw [List.mem_singleton.mp hsnew]
        rcases List.mem_append.mp hpk with hold | hnew
        · exfalso
          obtain ⟨t, ht, hty, -, -, -⟩ := hst.tied pk hold
          obtain ⟨-, hle, hhpos⟩ := chain_mem st.shelves p st.currentY hst.chain t ht
          rw [List.mem_singleton.mp hsnew] at hy
          simp only at hy
          rw [hy] at hty
          linarith [hty ▸ hle]
        · rw [List.mem_singleton.mp hnew]
          simp only
          linarith
    · rw [List.pairwise_append]
      refine ⟨hst.disj, List.pairwise_singleton _ _, ?_⟩
      intro a ha b hb
      rw [List.mem_singleton.mp hb, itemsDisjoint_iff]
      right; right; left
      obtain ⟨t, ht, hty, hth, -, -⟩ := hst.tied a ha
      obtain ⟨-, hle, -⟩ := chain_mem st.shelves p st.currentY hst.chain t ht
      simp only
      linarith [hty ▸ (by linarith : t.y + a.item.height + p ≤ st.currentY)]
  | some val =>
    obtain ⟨l', x, y⟩ := val
    obtain ⟨pre, s, post, hdecomp, hl', hfit, hsheight, hx, hy0⟩ :=
      placeOnShelves_spec cw (it.width + p) (it.height + p) st.shelves l' x y hplace
    subst hx
    subst hy0
    rw [shelfStep_some cw p st it l' s.width s.y hplace]
    have hchain0 : ShelvesChain p (pre ++ s :: post) st.currentY := hdecomp ▸ hst.chain
    have hpw := chain_pairwise _ p st.currentY hchain0
    have hsmem : s ∈ st.shelves := by
      rw [hdecomp]
      exact List.mem_append_right _ (List.mem_cons_self _ _)
    have hpre : ∀ u ∈ pre, u.y + u.height ≤ s.y := by
      intro u hu
      exact (List.pairwise_append.mp hpw).2.2 u hu s (List.mem_cons_self _ _)
    have hpost : ∀ u ∈ post, s.y + s.height ≤ u.y := by
      intro u hu
      exact (List.pairwise_cons.mp (List.pairwise_append.mp hpw).2.1).1 u hu
    have hhpos : ∀ u ∈ st.shelves, 0 < u.height := fun u hu =>
      (chain_mem st.shelves p st.currentY hst.chain u hu).2.2
    refine ⟨?_, ?_, ?_, ?_⟩
    · show ShelvesChain p l' st.currentY
      rw [hl']
      exact chain_replace pre p st.currentY s _ post hchain0 rfl rfl
    · intro pk hpk
      rcases List.mem_append.mp hpk with hold | hnew
      · obtain ⟨t, ht, hprops⟩ := hst.tied pk hold
        rw [hdecomp] at ht
        rcases List.mem_append.mp ht with htp | hts
        · exact ⟨t, (by rw [hl']; exact List.mem_append_left _ htp), hprops⟩
        · rcases List.mem_cons.mp hts with rfl | htpost
          · refine ⟨{ t with width := t.width + (it.width + p) },
              (by rw [hl']; exact List.mem_append_right _ (List.mem_cons_self _ _)), ?_⟩
            exact hprops
          · refine ⟨t, ?_, hprops⟩
            show t ∈ l'
            rw [hl']
            exact List.mem_append_right _ (List.mem_cons_of_mem _ htpost)
      · rw [List.mem_singleton.mp hnew]
        refine ⟨{ s with width := s.width + (it.width + p) },
          (by rw [hl']; exact List.mem_append_right _ (List.mem_cons_self _ _)), rfl, ?_, hh, hw⟩
        exact hsheight
    · intro u hu pk hpk hy
      rw [hl'] at hu
      rcases List.mem_append.mp hu with hupre | hus
      · rcases List.mem_append.mp hpk with hold | hnew
        · exact hst.rowBound u (by rw [hdecomp]; exact List.mem_append_left _ hupre) pk hold hy
        · exfalso
          rw [List.mem_singleton.mp hnew] at hy
          simp only at hy
          have h1 := hpre u hupre
          have h2 := hhpos u (by rw [hdecomp]; exact List.mem_append_left _ hupre)
          linarith [hy ▸ h1]
      · rcases List.mem_cons.mp hus with rfl | hupost
        · rcases List.mem_append.mp hpk with hold | hnew
          · have hb := hst.rowBound s hsmem pk hold (by simpa using hy)
            simp only
            linarith
          · rw [List.mem_singleton.mp hnew]
            simp only
            linarith
        · rcases List.mem_append.mp hpk with hold | hnew
          · refine hst.rowBound u ?_ pk hold hy
            rw [hdecomp]
            exact List.mem_append_right _ (List.mem_cons_of_mem _ hupost)
          · exfalso
            rw [List.mem_singleton.mp hnew] at hy
            simp only at hy
            have h1 := hpost u hupost
            have h2 := hhpos s hsmem
            linarith [hy ▸ h1]
    · show List.Pairwise itemsDisjoint
        (st.packed ++ [({ item := it, x := s.width, y := s.y } : PackedItem)])
      rw [List.pairwise_append]
      refine ⟨hst.disj, List.pairwise_singleton _ _, ?_⟩
      intro a ha b hb
      rw [List.mem_singleton.mp hb, itemsDisjoint_iff]
      by_cases hay : a.y = s.y
      · left
        have := hst.rowBound s hsmem a ha hay
        simpa using this
      · obtain ⟨t, ht, hty, hth, hahpos, -⟩ := hst.tied a ha
        have htns : t ≠ s := fun hts => hay (by rw [hty, hts])
        have hpw' : st.shelves.Pairwise
            (fun u v => u.y + u.height ≤ v.y ∨ v.y + v.height ≤ u.y) := by
          rw [hdecomp]
          exact hpw.imp (fun h => Or.inl h)
        have hsym : Symmetric (fun u v : Shelf => u.y + u.height ≤ v.y ∨ v.y + v.height ≤ u.y) :=
          fun u v h => h.symm
        rcases hpw'.forall hsym ht hsmem htns with hcase | hcase
        · right; right; left
          simp only
          linarith
        · right; right; right
          simp only
          linarith

theorem shelf_fold_inv (cw p : ℚ) (hp : 0 ≤ p) (l : List PackableItem) :
    ∀ st : ShelfState, (∀ it ∈ l, 0 < it.width ∧ 0 < it.height) → SInv cw p st →
      SInv cw p (l.foldl (shelfStep cw p) st) := by
  induction l with
  | nil => intro st _ h; exact h
  | cons it l ih =>
    intro st hl h
    rw [List.foldl_cons]
    exact ih _ (fun x hx => hl x (List.mem_cons_of_mem _ hx))
      (shelfStep_inv cw p hp st it (hl it (List.mem_cons_self _ _)).1
        (hl it (List.mem_cons_self _ _)).2 h)

theorem sinv_init (cw p : ℚ) : SInv cw p ⟨[], [], p⟩ := by
  refine ⟨?_, ?_, ?_, ?_⟩
  · show p = p
    rfl
  · intro pk hpk
    exact absurd hpk (List.not_mem_nil pk)
  · intro s hs
    exact absurd hs (List.not_mem_nil s)
  · exact List.Pairwise.nil

theorem shelfRun_inv (cw p : ℚ) (hp : 0 ≤ p) (items : List PackableItem)
    (hl : ∀ it ∈ items, 0 < it.width ∧ 0 < it.height) :
    SInv cw p (shelfRun cw p items) :=
  shelf_fold_inv cw p hp items _ hl (sinv_init cw p)

theorem shelf_fold_widths (cw p : ℚ) (hp : 0 ≤ p) (l : List PackableItem) :
    ∀ st : ShelfState, (∀ it ∈ l, it.width + 2 * p ≤ cw) →
      (∀ s ∈ st.shelves, s.width ≤ cw) →
      ∀ s ∈ (l.foldl (shelfStep cw p) st).shelves, s.width ≤ cw := by
  induction l with
  | nil => intro st _ hw; exact hw
  | cons it l ih =>
    intro st hpro hw
    rw [List.foldl_cons]
    refine ih _ (fun x hx => hpro x (List.mem_cons_of_mem _ hx)) ?_
    cases hplace : placeOnShelves cw (it.width + p) (it.height + p) st.shelves with
    | none =>
      rw [shelfStep_none cw p st it hplace]
      intro s hs
      rcases List.mem_append.mp hs with h | h
      · exact hw s h
      · rw [List.mem_singleton.mp h]
        have := hpro it (List.mem_cons_self _ _)
        simp only
        linarith
    | some val =>
      obtain ⟨l', x, y⟩ := val
      obtain ⟨pre, s0, post, hdecomp, hl', hfit, -, -, -⟩ :=
        placeOnShelves_spec cw (it.width + p) (it.height + p) st.shelves l' x y hplace
      rw [shelfStep_some cw p st it l' x y hplace]
      intro s hs
      simp only at hs
      rw [hl'] at hs
      rcases List.mem_append.mp hs with h | h
      · exact hw s (by rw [hdecomp]; exact List.mem_append_left _ h)
      · rcases List.mem_cons.mp h with rfl | h'
        · simp only
          exact hfit
        · refine hw s ?_
          rw [hdecomp]
          exact List.mem_append_right _ (List.mem_cons_of_mem _ h')

theorem shelf_fold_packed (cw p : ℚ) (l : List PackableItem) :
    ∀ st : ShelfState,
      ((l.foldl (shelfStep cw p) st).packed).map (fun pk => pk.item) =
        st.packed.map (fun pk => pk.item) ++ l := by
  induction l with
  | nil => intro st; simp
  | cons it l ih =>
    intro st
    rw [List.foldl_cons, ih]
    cases hplace : placeOnShelves cw (it.width + p) (it.height + p) st.shelves with
    | none =>
      rw [shelfStep_none cw p st it hplace]
      simp
    | some val =>
      obtain ⟨l', x, y⟩ := val
      rw [shelfStep_some cw p st it l' x y hplace]
      simp

/-- No-overlap conclusion for the shelf packer. -/
theorem packItems_noOverlap (items : List PackableItem) (cw : ℚ) (opts : PackOptions)
    (hp : 0 ≤ resolvePadding opts.padding)
    (hpos : ∀ it ∈ items, 0 < it.width ∧ 0 < it.height) :
    List.Pairwise itemsDisjoint (packItems items cw opts).items := by
  refine (shelfRun_inv cw (resolvePadding opts.padding) hp (shelfSorted opts items) ?_).disj
  intro it hit
  refine hpos it ?_
  rw [shelfSorted] at hit
  by_cases hs : resolveSortByHeight opts.sortByHeight = true
  · rw [if_pos hs] at hit
    exact (mem_sortBy _ _ _).mp hit
  · rw [if_neg hs] at hit
    exact hit

/-- Width-bound conclusion for the shelf packer, under the proviso that
every item's padded width fits the container. -/
theorem packItems_widthBound (items : List PackableItem) (cw : ℚ) (opts : PackOptions)
    (hp : 0 ≤ resolvePadding opts.padding)
    (hpos : ∀ it ∈ items, 0 < it.width ∧ 0 < it.height)
    (hpro : ∀ it ∈ items, it.width + 2 * resolvePadding opts.padding ≤ cw) :
    ∀ pk ∈ (packItems items cw opts).items, pk.x + pk.item.width ≤ cw := by
  intro pk hpk
  have hmem : ∀ it ∈ shelfSorted opts items, it ∈ items := by
    intro it hit
    rw [shelfSorted] at hit
    by_cases hs : resolveSortByHeight opts.sortByHeight = true
    · rw [if_pos hs] at hit
      exact (mem_sortBy _ _ _).mp hit
    · rw [if_neg hs] at hit
      exact hit
  have hinv := shelfRun_inv cw (resolvePadding opts.padding) hp (shelfSorted opts items)
    (fun it hit => hpos it (hmem it hit))
  obtain ⟨s, hs, hy, -, -, -⟩ := hinv.tied pk hpk
  have hb := hinv.rowBound s hs pk hpk hy
  have hsw := shelf_fold_widths cw (resolvePadding opts.padding) hp (shelfSorted opts items)
    ⟨[], [], resolvePadding opts.padding⟩ (fun it hit => hpro it (hmem it hit))
    (fun s hs => absurd hs (List.not_mem_nil s)) s hs
  linarith

/-- Height-bound conclusion for the shelf packer. -/
theorem packItems_heightBound (items : List PackableItem) (cw : ℚ) (opts : PackOptions)
    (hp : 0 ≤ resolvePadding opts.padding)
    (hpos : ∀ it ∈ items, 0 < it.width ∧ 0 < it.height) :
    ∀ pk ∈ (packItems items cw opts).items,
      pk.y + pk.item.height ≤ (packItems items cw opts).containerHeight := by
  intro pk hpk
  have hmem : ∀ it ∈ shelfSorted opts items, it ∈ items := by
    intro it hit
    rw [shelfSorted] at hit
    by_cases hs : resolveSortByHeight opts.sortByHeight = true
    · rw [if_pos hs] at hit
      exact (mem_sortBy _ _ _).mp hit
    · rw [if_neg hs] at hit
      exact hit
  have hinv := shelfRun_inv cw (resolvePadding opts.padding) hp (shelfSorted opts items)
    (fun it hit => hpos it (hmem it hit))
  obtain ⟨s, hs, hy, hsh, -, -⟩ := hinv.tied pk hpk
  obtain ⟨-, hle, -⟩ := chain_mem _ _ _ hinv.chain s hs
  show pk.y + pk.item.height ≤ (shelfRun cw (resolvePadding opts.padding)
    (shelfSorted opts items)).currentY
  rw [hy]
  linarith

/-- The shelf packer returns every input item exactly once. -/
theorem packItems_perm (items : List PackableItem) (cw : ℚ) (opts : PackOptions) :
    ((packItems items cw opts).items.map (fun pk => pk.item)).Perm items := by
  show ((shelfRun cw (resolvePadding opts.padding)
    (shelfSorted opts items)).packed.map (fun pk => pk.item)).Perm items
  rw [shelfRun, shelf_fold_packed]
  simp only [List.map_nil, List.nil_append]
  rw [shelfSorted]
  by_cases hs : resolveSortByHeight opts.sortByHeight = true
  · rw [if_pos hs]
    exact sortBy_perm _ items
  · rw [if_neg hs]

/-! ### Column packing invariant -/

/-- Items of one column stack downward from `y0` with padded gaps, ending
at the column's running height `yEnd`. -/
def ColChain (p y0 : ℚ) : List PackedItem → ℚ → Prop
  | [], yEnd => yEnd = y0
  | pk :: rest, yEnd => pk.y = y0 ∧ ColChain p (y0 + pk.item.height + p) rest yEnd

theorem colchain_le (p : ℚ) (l : List PackedItem) :
    ∀ (y0 yEnd : ℚ), ColChain p y0 l yEnd → (0 ≤ p) →
      (∀ pk ∈ l, 0 < pk.item.height) → y0 ≤ yEnd := by
  induction l with
  | nil => intro y0 yEnd h _ _; exact le_of_eq h.symm
  | cons pk rest ih =>
    intro y0 yEnd h hp hpos
    have := ih (y0 + pk.item.height + p) yEnd h.2 hp
      (fun x hx => hpos x (List.mem_cons_of_mem _ hx))
    have hh := hpos pk (List.mem_cons_self _ _)
    linarith

theorem colchain_mem (p : ℚ) (l : List PackedItem) :
    ∀ (y0 yEnd : ℚ), ColChain p y0 l yEnd → (0 ≤ p) →
      (∀ pk ∈ l, 0 < pk.item.height) →
      ∀ pk ∈ l, y0 ≤ pk.y ∧ pk.y + pk.item.height ≤ yEnd := by
  induction l with
  | nil => intro y0 yEnd _ _ _ pk hpk; exact absurd hpk (List.not_mem_nil pk)
  | cons a rest ih =>
    intro y0 yEnd h hp hpos pk hpk
    rcases List.mem_cons.mp hpk with rfl | hpk'
    · have := colchain_le p rest (y0 + pk.item.height + p) yEnd h.2 hp
        (fun x hx => hpos x (List.mem_cons_of_mem _ hx))
      exact ⟨le_of_eq h.1.symm, by rw [h.1]; linarith⟩
    · have := ih (y0 + a.item.height + p) yEnd h.2 hp
        (fun x hx => hpos x (List.mem_cons_of_mem _ hx)) pk hpk'
      have ha := hpos a (List.mem_cons_self _ _)
      exact ⟨by linarith [this.1], this.2⟩

theorem colchain_pairwise (p : ℚ) (l : List PackedItem) :
    ∀ (y0 yEnd : ℚ), ColChain p y0 l yEnd → (0 ≤ p) →
      (∀ pk ∈ l, 0 < pk.item.height) →
      l.Pairwise (fun a b => a.y + a.item.height ≤ b.y) := by
  induction l with
  | nil => intro _ _ _ _ _; exact List.Pairwise.nil
  | cons a rest ih =>
    intro y0 yEnd h hp hpos
    refine List.Pairwise.cons ?_ (ih (y0 + a.item.height + p) yEnd h.2 hp
      (fun x hx => hpos x (List.mem_cons_of_mem _ hx)))
    intro b hb
    have := colchain_mem p rest (y0 + a.item.height + p) yEnd h.2 hp
      (fun x hx => hpos x (List.mem_cons_of_mem _ hx)) b hb
    rw [h.1]
    linarith [this.1]

theorem colchain_snoc (p : ℚ) (l : List PackedItem) :
    ∀ (y0 yEnd : ℚ) (it : PackableItem) (x : ℚ),
      ColChain p y0 l yEnd →
      ColChain p y0 (l ++ [⟨it, x, yEnd⟩]) (yEnd + it.height + p) := by
  induction l with
  | nil =>
    intro y0 yEnd it x h
    refine ⟨h, ?_⟩
    show yEnd + it.height + p = y0 + _ + p
    rw [h]
  | cons a rest ih =>
    intro y0 yEnd it x h
    exact ⟨h.1, ih (y0 + a.item.height + p) yEnd it x h.2⟩

theorem getD_set_self {α : Type} (l : List α) :
    ∀ (i : ℕ) (x d : α), i < l.length → (l.set i x).getD i d = x := by
  induction l with
  | nil => intro i x d h; exact absurd h (by simp)
  | cons a l ih =>
    intro i x d h
    cases i with
    | zero => rfl
    | succ i => exact ih i x d (by simpa using h)

theorem getD_set_other {α : Type} (l : List α) :
    ∀ (i j : ℕ) (x d : α), i ≠ j → (l.set i x).getD j d = l.getD j d := by
  induction l with
  | nil => intro i j x d _; rfl
  | cons a l ih =>
    intro i j x d hij
    cases i with
    | zero =>
      cases j with
      | zero => exact absurd rfl hij
      | succ j => rfl
    | succ i =>
      cases j with
      | zero => rfl
      | succ j => exact ih i j x d (fun h => hij (by rw [h]))

/-- Invariant of the column packer's fold state. -/
structure CInv (colW p : ℚ) (ncN : ℕ) (items : List PackableItem)
    (st : List (List PackedItem) × List ℚ) : Prop where
  lenC : st.1.length = ncN
  lenH : st.2.length = ncN
  xeq : ∀ c, c < ncN → ∀ pk ∈ st.1.getD c [], pk.x = (c : ℚ) * colW + p
  fromItems : ∀ c, c < ncN → ∀ pk ∈ st.1.getD c [], pk.item ∈ items
  chainC : ∀ c, c < ncN → ColChain p p (st.1.getD c []) (st.2.getD c 0)

theorem columnStep_eq (colW p : ℚ) (ncN : ℕ) (st : List (List PackedItem) × List ℚ)
    (q : ℕ × PackableItem) :
    columnStep colW p ncN st q =
      (st.1.set (q.1 % ncN) (st.1.getD (q.1 % ncN) [] ++
        [⟨q.2, ((q.1 % ncN : ℕ) : ℚ) * colW + p, st.2.getD (q.1 % ncN) 0⟩]),
       st.2.set (q.1 % ncN) (st.2.getD (q.1 % ncN) 0 + q.2.height + p)) := rfl

theorem columnStep_inv (colW p : ℚ) (ncN : ℕ) (items : List PackableItem)
    (st : List (List PackedItem) × List ℚ) (q : ℕ × PackableItem)
    (hq : q.2 ∈ items) (hinv : CInv colW p ncN items st) :
    CInv colW p ncN items (columnStep colW p ncN st q) := by
  rw [columnStep_eq]
  by_cases hpos : 0 < ncN
  case neg =>
    have hz : ncN = 0 := Nat.eq_zero_of_not_pos hpos
    refine ⟨?_, ?_, ?_, ?_, ?_⟩
    · show (st.1.set _ _).length = ncN
      rw [List.length_set]
      exact hinv.lenC
    · show (st.2.set _ _).length = ncN
      rw [List.length_set]
      exact hinv.lenH
    · intro c hc
      exact absurd hc (by rw [hz]; exact Nat.not_lt_zero c)
    · intro c hc
      exact absurd hc (by rw [hz]; exact Nat.not_lt_zero c)
    · intro c hc
      exact absurd hc (by rw [hz]; exact Nat.not_lt_zero c)
  case pos =>
    have hci : q.1 % ncN < ncN := Nat.mod_lt _ hpos
    refine ⟨?_, ?_, ?_, ?_, ?_⟩
    · show (st.1.set _ _).length = ncN
      rw [List.length_set]
      exact hinv.lenC
    · show (st.2.set _ _).length = ncN
      rw [List.length_set]
      exact hinv.lenH
    · intro c hc pk hpk
      have hpk' : pk ∈ (st.1.set (q.1 % ncN) (st.1.getD (q.1 % ncN) [] ++
          [⟨q.2, ((q.1 % ncN : ℕ) : ℚ) * colW + p, st.2.getD (q.1 % ncN) 0⟩])).getD c [] := hpk
      by_cases hceq : q.1 % ncN = c
      · subst hceq
        rw [getD_set_self st.1 _ _ _ (hinv.lenC ▸ hci)] at hpk'
        rcases List.mem_append.mp hpk' with h | h
        · exact hinv.xeq _ hci pk h
        · rw [List.mem_singleton.mp h]
      · rw [getD_set_other st.1 _ _ _ _ hceq] at hpk'
        exact hinv.xeq c hc pk hpk'
    · intro c hc pk hpk
      have hpk' : pk ∈ (st.1.set (q.1 % ncN) (st.1.getD (q.1 % ncN) [] ++
          [⟨q.2, ((q.1 % ncN : ℕ) : ℚ) * colW + p, st.2.getD (q.1 % ncN) 0⟩])).getD c [] := hpk
      by_cases hceq : q.1 % ncN = c
      · subst hceq
        rw [getD_set_self st.1 _ _ _ (hinv.lenC ▸ hci)] at hpk'
        rcases List.mem_append.mp hpk' with h | h
        · exact hinv.fromItems _ hci pk h
        · rw [List.mem_singleton.mp h]
          exact hq
      · rw [getD_set_other st.1 _ _ _ _ hceq] at hpk'
        exact hinv.fromItems c hc pk hpk'
    · intro c hc
      show ColChain p p ((st.1.set (q.1 % ncN) (st.1.getD (q.1 % ncN) [] ++
          [⟨q.2, ((q.1 % ncN : ℕ) : ℚ) * colW + p, st.2.getD (q.1 % ncN) 0⟩])).getD c [])
        ((st.2.set (q.1 % ncN) (st.2.getD (q.1 % ncN) 0 + q.2.height + p)).getD c 0)
      by_cases hceq : q.1 % ncN = c
      · subst hceq
        rw [getD_set_self st.1 _ _ _ (hinv.lenC ▸ hci),
          getD_set_self st.2 _ _ _ (hinv.lenH ▸ hci)]
        exact colchain_snoc p _ p _ q.2 _ (hinv.chainC _ hci)
      · rw [getD_set_other st.1 _ _ _ _ hceq, getD_set_other st.2 _ _ _ _ hceq]
        exact hinv.chainC c hc

theorem column_fold_inv (colW p : ℚ) (ncN : ℕ) (items : List PackableItem)
    (ps : List (ℕ × PackableItem)) :
    ∀ (st : List (List PackedItem) × List ℚ), (∀ q ∈ ps, q.2 ∈ items) →
      CInv colW p ncN items st →
      CInv colW p ncN items (ps.foldl (columnStep colW p ncN) st) := by
  induction ps with
  | nil => intro st _ h; exact h
  | cons q ps ih =>
    intro st hps h
    rw [List.foldl_cons]
    exact ih _ (fun x hx => hps x (List.mem_cons_of_mem _ hx))
      (columnStep_inv colW p ncN items st q (hps q (List.mem_cons_self _ _)) h)

theorem getD_replicate_of_lt {α : Type} :
    ∀ (n i : ℕ) (a d : α), i < n → (List.replicate n a).getD i d = a := by
  intro n
  induction n with
  | zero => intro i a d h; exact absurd h (Nat.not_lt_zero i)
  | succ n ih =>
    intro i a d h
    cases i with
    | zero => rfl
    | succ i => exact ih i a d (Nat.lt_of_succ_lt_succ h)

theorem cinv_init (colW p : ℚ) (ncN : ℕ) (items : List PackableItem) :
    CInv colW p ncN items (List.replicate ncN [], List.replicate ncN p) := by
  refine ⟨by simp, by simp, ?_, ?_, ?_⟩
  · intro c hc pk hpk
    rw [getD_replicate_of_lt ncN c _ _ hc] at hpk
    exact absurd hpk (List.not_mem_nil pk)
  · intro c hc pk hpk
    rw [getD_replicate_of_lt ncN c _ _ hc] at hpk
    exact absurd hpk (List.not_mem_nil pk)
  · intro c hc
    show ColChain p p ((List.replicate ncN ([] : List PackedItem)).getD c [])
      ((List.replicate ncN p).getD c 0)
    rw [getD_replicate_of_lt ncN c _ _ hc, getD_replicate_of_lt ncN c _ _ hc]
    show p = p
    rfl

theorem columnRun_inv (cw p mcw : ℚ) (maxCols : ℤ) (items : List PackableItem) :
    CInv (columnWidthOf cw (numColumns cw mcw maxCols)) p (numColumns cw mcw maxCols).toNat
      items (columnRun cw p mcw maxCols items) := by
  rw [columnRun]
  refine column_fold_inv _ _ _ _ _ _ ?_ (cinv_init _ _ _ _)
  intro q hq
  have h := List.enum_map_snd items
  rw [← h]
  exact List.mem_map_of_mem Prod.snd hq

theorem foldl_max_init (l : List ℚ) : ∀ d : ℚ, d ≤ l.foldl max d := by
  induction l with
  | nil => intro d; exact le_refl d
  | cons a l ih =>
    intro d
    calc d ≤ max d a := le_max_left d a
    _ ≤ l.foldl max (max d a) := ih (max d a)

theorem foldl_max_mem (l : List ℚ) : ∀ (d x : ℚ), x ∈ l → x ≤ l.foldl max d := by
  induction l with
  | nil => intro d x hx; exact absurd hx (List.not_mem_nil x)
  | cons a l ih =>
    intro d x hx
    rcases List.mem_cons.mp hx with rfl | hx'
    · calc x ≤ max d x := le_max_right d x
      _ ≤ l.foldl max (max d x) := foldl_max_init l (max d x)
    · exact ih (max d a) x hx'

theorem nc_mul_colW_le (cw mcw : ℚ) (maxCols : ℤ) (hmc : 1 ≤ maxCols) :
    ((numColumns cw mcw maxCols : ℤ) : ℚ) * columnWidthOf cw (numColumns cw mcw maxCols) ≤
      cw ∧ 1 ≤ numColumns cw mcw maxCols := by
  have hnc : 1 ≤ numColumns cw mcw maxCols := by
    rw [numColumns]
    exact le_min (le_max_left 1 _) hmc
  have hncQ : (1 : ℚ) ≤ ((numColumns cw mcw maxCols : ℤ) : ℚ) := by exact_mod_cast hnc
  refine ⟨?_, hnc⟩
  rw [columnWidthOf]
  have hfl : ((⌊cw / ((numColumns cw mcw maxCols : ℤ) : ℚ)⌋ : ℤ) : ℚ) ≤
      cw / ((numColumns cw mcw maxCols : ℤ) : ℚ) := Int.floor_le _
  have hpos : (0 : ℚ) < ((numColumns cw mcw maxCols : ℤ) : ℚ) := by linarith
  calc ((numColumns cw mcw maxCols : ℤ) : ℚ) * ((⌊cw / _⌋ : ℤ) : ℚ)
      ≤ ((numColumns cw mcw maxCols : ℤ) : ℚ) * (cw / ((numColumns cw mcw maxCols : ℤ) : ℚ)) :=
        mul_le_mul_of_nonneg_left hfl (le_of_lt hpos)
    _ = cw := mul_div_cancel₀ cw (ne_of_gt hpos)

/-- Pairwise disjointness of the column packer's output under the
fit-in-column proviso. -/
theorem packIntoColumns_noOverlap (items : List PackableItem) (cw : ℚ) (copts : ColumnOptions)
    (hp : 0 ≤ resolvePadding copts.padding)
    (hpos : ∀ it ∈ items, 0 < it.width ∧ 0 < it.height)
    (hfit : ∀ it ∈ items, it.width + resolvePadding copts.padding ≤
      columnWidthOf cw (numColumns cw (resolveMinColW copts.minColumnWidth)
        (resolveMaxCols copts.maxColumns))) :
    List.Pairwise itemsDisjoint (packIntoColumns items cw copts).items := by
  have hinv := columnRun_inv cw (resolvePadding copts.padding)
    (resolveMinColW copts.minColumnWidth) (resolveMaxCols copts.maxColumns) items
  show List.Pairwise itemsDisjoint (columnRun cw (resolvePadding copts.padding)
    (resolveMinColW copts.minColumnWidth) (resolveMaxCols copts.maxColumns) items).1.flatten
  rw [List.pairwise_flatten]
  constructor
  · intro l hl
    obtain ⟨c, hc, hlc⟩ := List.mem_iff_getElem.mp hl
    have hc' : c < (numColumns cw (resolveMinColW copts.minColumnWidth)
        (resolveMaxCols copts.maxColumns)).toNat := hinv.lenC ▸ hc
    have hgetd := List.getD_eq_getElem (d := ([] : List PackedItem)) _ hc
    have hchain := hinv.chainC c hc'
    rw [hgetd, hlc] at hchain
    have hposl : ∀ pk ∈ l, 0 < pk.item.height := by
      intro pk hpk
      have := hinv.fromItems c hc' pk (by rw [hgetd, hlc]; exact hpk)
      exact (hpos pk.item this).2
    refine (colchain_pairwise _ l _ _ hchain hp hposl).imp ?_
    intro a b hab
    rw [itemsDisjoint_iff]
    exact Or.inr (Or.inr (Or.inl hab))
  · rw [List.pairwise_iff_getElem]
    intro i j hi hj hij a ha b hb
    have hi' : i < (numColumns cw (resolveMinColW copts.minColumnWidth)
        (resolveMaxCols copts.maxColumns)).toNat := hinv.lenC ▸ hi
    have hj' : j < (numColumns cw (resolveMinColW copts.minColumnWidth)
        (resolveMaxCols copts.maxColumns)).toNat := hinv.lenC ▸ hj
    have hgi := List.getD_eq_getElem (d := ([] : List PackedItem)) _ hi
    have hgj := List.getD_eq_getElem (d := ([] : List PackedItem)) _ hj
    have hax := hinv.xeq i hi' a (by rw [hgi]; exact ha)
    have hbx := hinv.xeq j hj' b (by rw [hgj]; exact hb)
    have hmema := hinv.fromItems i hi' a (by rw [hgi]; exact ha)
    have hwa := hfit a.item hmema
    have hwapos := (hpos a.item hmema).1
    rw [itemsDisjoint_iff]
    left
    rw [hax, hbx]
    have hij1 : (i : ℚ) + 1 ≤ (j : ℚ) := by exact_mod_cast hij
    have hcolWpos : 0 < columnWidthOf cw (numColumns cw
        (resolveMinColW copts.minColumnWidth) (resolveMaxCols copts.maxColumns)) := by
      linarith
    nlinarith

/-- Width-bound conclusion for the column packer. -/
theorem packIntoColumns_widthBound (items : List PackableItem) (cw : ℚ)
    (copts : ColumnOptions)
    (hp : 0 ≤ resolvePadding copts.padding)
    (hpos : ∀ it ∈ items, 0 < it.width ∧ 0 < it.height)
    (hmc : 1 ≤ resolveMaxCols copts.maxColumns)
    (hfit : ∀ it ∈ items, it.width + resolvePadding copts.padding ≤
      columnWidthOf cw (numColumns cw (resolveMinColW copts.minColumnWidth)
        (resolveMaxCols copts.maxColumns))) :
    ∀ pk ∈ (packIntoColumns items cw copts).items, pk.x + pk.item.width ≤ cw := by
  intro pk hpk
  have hinv := columnRun_inv cw (resolvePadding copts.padding)
    (resolveMinColW copts.minColumnWidth) (resolveMaxCols copts.maxColumns) items
  obtain ⟨hmul, hnc1⟩ := nc_mul_colW_le cw (resolveMinColW copts.minColumnWidth)
    (resolveMaxCols copts.maxColumns) hmc
  obtain ⟨l, hl, hpkl⟩ := List.mem_flatten.mp hpk
  obtain ⟨c, hc, hlc⟩ := List.mem_iff_getElem.mp hl
  have hc' : c < (numColumns cw (resolveMinColW copts.minColumnWidth)
      (resolveMaxCols copts.maxColumns)).toNat := hinv.lenC ▸ hc
  have hgetd := List.getD_eq_getElem (d := ([] : List PackedItem)) _ hc
  have hax := hinv.xeq c hc' pk (by rw [hgetd, hlc]; exact hpkl)
  have hmema := hinv.fromItems c hc' pk (by rw [hgetd, hlc]; exact hpkl)
  have hwa := hfit pk.item hmema
  rw [hax]
  have hcast : ((c : ℚ) + 1) ≤ (((numColumns cw (resolveMinColW copts.minColumnWidth)
      (resolveMaxCols copts.maxColumns) : ℤ) : ℚ)) := by
    have : (c : ℤ) + 1 ≤ (numColumns cw (resolveMinColW copts.minColumnWidth)
        (resolveMaxCols copts.maxColumns)) := by
      have := hc'
      omega
    exact_mod_cast this
  have hcolWpos : 0 ≤ columnWidthOf cw (numColumns cw
      (resolveMinColW copts.minColumnWidth) (resolveMaxCols copts.maxColumns)) := by
    linarith [(hpos pk.item hmema).1]
  nlinarith

/-- Height-bound conclusion for the column packer. -/
theorem packIntoColumns_heightBound (items : List PackableItem) (cw : ℚ)
    (copts : ColumnOptions)
    (hp : 0 ≤ resolvePadding copts.padding)
    (hpos : ∀ it ∈ items, 0 < it.width ∧ 0 < it.height) :
    ∀ pk ∈ (packIntoColumns items cw copts).items,
      pk.y + pk.item.height ≤ (packIntoColumns items cw copts).containerHeight := by
  intro pk hpk
  have hinv := columnRun_inv cw (resolvePadding copts.padding)
    (resolveMinColW copts.minColumnWidth) (resolveMaxCols copts.maxColumns) items
  obtain ⟨l, hl, hpkl⟩ := List.mem_flatten.mp hpk
  obtain ⟨c, hc, hlc⟩ := List.mem_iff_getElem.mp hl
  have hc' : c < (numColumns cw (resolveMinColW copts.minColumnWidth)
      (resolveMaxCols copts.maxColumns)).toNat := hinv.lenC ▸ hc
  have hgetd := List.getD_eq_getElem (d := ([] : List PackedItem)) _ hc
  have hchain := hinv.chainC c hc'
  have hposl : ∀ x ∈ (columnRun cw (resolvePadding copts.padding)
      (resolveMinColW copts.minColumnWidth) (resolveMaxCols copts.maxColumns) items).1.getD
        c [], 0 < x.item.height := by
    intro x hx
    exact (hpos x.item (hinv.fromItems c hc' x hx)).2
  have hbound := colchain_mem _ _ _ _ hchain hp hposl pk (by rw [hgetd, hlc]; exact hpkl)
  have hcle : c < (columnRun cw (resolvePadding copts.padding)
      (resolveMinColW copts.minColumnWidth) (resolveMaxCols copts.maxColumns) items).2.length := by
    rw [hinv.lenH]
    exact hc'
  have hhts : (columnRun cw (resolvePadding copts.padding)
      (resolveMinColW copts.minColumnWidth) (resolveMaxCols copts.maxColumns) items).2.getD
        c 0 ≤ (packIntoColumns items cw copts).containerHeight := by
    show _ ≤ ((columnRun cw (resolvePadding copts.padding)
      (resolveMinColW copts.minColumnWidth) (resolveMaxCols copts.maxColumns) items).2).foldl
        max (resolvePadding copts.padding)
    rw [List.getD_eq_getElem (d := (0 : ℚ)) _ hcle]
    exact foldl_max_mem _ _ _ (List.getElem_mem hcle)
  linarith [hbound.2]

/-! ### Guillotine packing invariant -/

theorem XQ.leB_refl (a : XQ) : XQ.leB a a = true := by
  cases a with
  | inf => rfl
  | fin q => exact decide_eq_true (le_refl q)

theorem XQ.leB_trans (a b c : XQ) (h1 : XQ.leB a b = true) (h2 : XQ.leB b c = true) :
    XQ.leB a c = true := by
  cases a <;> cases b <;> cases c <;> simp_all [XQ.leB] <;> linarith

theorem XQ.leB_fin_mono (a : XQ) (q r : ℚ) (h1 : XQ.leB a (XQ.fin q) = true) (h2 : q ≤ r) :
    XQ.leB a (XQ.fin r) = true := by
  cases a <;> simp_all [XQ.leB] <;> linarith

/-- Disjointness of two free rectangles, per `rectanglesOverlap`. -/
def FRDisjoint (a b : FreeRect) : Prop := rectanglesOverlap a b = false

theorem FRDisjoint_iff (a b : FreeRect) :
    FRDisjoint a b ↔
      a.x + a.width ≤ b.x ∨ b.x + b.width ≤ a.x ∨
      XQ.leB (XQ.addQ a.y a.height) (XQ.fin b.y) = true ∨
      XQ.leB (XQ.addQ b.y b.height) (XQ.fin a.y) = true := by
  rw [FRDisjoint, rectanglesOverlap]
  cases hd1 : decide (a.x + a.width ≤ b.x) <;>
  cases hd2 : decide (b.x + b.width ≤ a.x) <;>
  cases hd3 : XQ.leB (XQ.addQ a.y a.height) (XQ.fin b.y) <;>
  cases hd4 : XQ.leB (XQ.addQ b.y b.height) (XQ.fin a.y) <;>
    simp_all

theorem FRDisjoint_symm (a b : FreeRect) (h : FRDisjoint a b) : FRDisjoint b a := by
  rw [FRDisjoint_iff] at h ⊢
  tauto

/-- Geometric containment of one free rectangle in another. -/
def SubRect (a b : FreeRect) : Prop :=
  b.x ≤ a.x ∧ a.x + a.width ≤ b.x + b.width ∧ b.y ≤ a.y ∧
  XQ.leB (XQ.addQ a.y a.height) (XQ.addQ b.y b.height) = true

theorem SubRect_disjoint (a b c : FreeRect) (hsub : SubRect a b) (hd : FRDisjoint b c) :
    FRDisjoint a c := by
  obtain ⟨h1, h2, h3, h4⟩ := hsub
  rw [FRDisjoint_iff] at hd ⊢
  rcases hd with h | h | h | h
  · exact Or.inl (by linarith)
  · exact Or.inr (Or.inl (by linarith))
  · exact Or.inr (Or.inr (Or.inl (XQ.leB_trans _ _ _ h4 h)))
  · refine Or.inr (Or.inr (Or.inr ?_))
    exact XQ.leB_fin_mono _ _ _ h h3

/-- Containment in the container's horizontal band. -/
def InBounds (cw p : ℚ) (r : FreeRect) : Prop := p ≤ r.x ∧ r.x + r.width ≤ cw - p

theorem InBounds_of_subRect (cw p : ℚ) (a b : FreeRect) (hsub : SubRect a b)
    (hb : InBounds cw p b) : InBounds cw p a :=
  ⟨by linarith [hsub.1, hb.1], by linarith [hsub.2.1, hb.2]⟩

theorem mem_splitRight (r : FreeRect) (iw ih : ℚ) (s : FreeRect)
    (hs : s ∈ splitRight r iw ih) :
    s = ⟨r.x + iw, r.y, r.width - iw, XQ.fin ih⟩ ∧ iw < r.width := by
  rw [splitRight] at hs
  by_cases h : iw < r.width
  · rw [if_pos h] at hs
    exact ⟨List.mem_singleton.mp hs, h⟩
  · rw [if_neg h] at hs
    exact absurd hs (List.not_mem_nil s)

theorem mem_splitBottom (r : FreeRect) (iw ih : ℚ) (s : FreeRect)
    (hs : s ∈ splitBottom r iw ih) :
    s = ⟨r.x, r.y + ih, r.width, XQ.sub r.height ih⟩ ∧
      XQ.ltB (XQ.fin ih) r.height = true := by
  rw [splitBottom] at hs
  by_cases h : XQ.ltB (XQ.fin ih) r.height = true
  · rw [if_pos h] at hs
    exact ⟨List.mem_singleton.mp hs, h⟩
  · rw [if_neg h] at hs
    exact absurd hs (List.not_mem_nil s)

theorem splitRight_subRect (r : FreeRect) (iw ih : ℚ) (hiw : 0 ≤ iw)
    (hfit : fitsIn r iw ih = true) (s : FreeRect) (hs : s ∈ splitRight r iw ih) :
    SubRect s r := by
  obtain ⟨rfl, hlt⟩ := mem_splitRight r iw ih s hs
  refine ⟨by simp only; linarith, by simp only; linarith, le_refl _, ?_⟩
  simp only [XQ.addQ]
  rw [fitsIn, Bool.and_eq_true] at hfit
  cases hh : r.height with
  | inf => rfl
  | fin H =>
    have := hfit.2
    rw [hh] at this
    simp only [XQ.leB, decide_eq_true_eq] at this
    simp [XQ.leB]
    linarith

theorem splitBottom_subRect (r : FreeRect) (iw ih : ℚ) (hih : 0 ≤ ih)
    (s : FreeRect) (hs : s ∈ splitBottom r iw ih) : SubRect s r := by
  obtain ⟨rfl, hlt⟩ := mem_splitBottom r iw ih s hs
  refine ⟨le_refl _, le_refl _, by simp only; linarith, ?_⟩
  cases hh : r.height with
  | inf => rfl
  | fin H =>
    simp only [XQ.addQ, XQ.sub, XQ.leB, decide_eq_true_eq]
    linarith

theorem splitRight_disjoint_splitBottom (r : FreeRect) (iw ih : ℚ)
    (s t : FreeRect) (hs : s ∈ splitRight r iw ih) (ht : t ∈ splitBottom r iw ih) :
    FRDisjoint s t := by
  obtain ⟨rfl, -⟩ := mem_splitRight r iw ih s hs
  obtain ⟨rfl, -⟩ := mem_splitBottom r iw ih t ht
  rw [FRDisjoint_iff]
  refine Or.inr (Or.inr (Or.inl ?_))
  simp [XQ.addQ, XQ.leB]

theorem pruneAux_sublist (l : List FreeRect) :
    ∀ seen : List FreeRect, (pruneAux seen l).Sublist l := by
  induction l with
  | nil => intro seen; exact List.Sublist.refl []
  | cons r rest ih =>
    intro seen
    rw [pruneAux]
    by_cases h : seen.any (fun s => rectanglesOverlap r s) = true
    · rw [if_pos h]
      exact List.Sublist.cons r (ih (seen ++ [r]))
    · rw [if_neg h]
      exact List.Sublist.cons₂ r (ih (seen ++ [r]))

theorem pruneOverlapping_sublist (l : List FreeRect) : (pruneOverlapping l).Sublist l :=
  pruneAux_sublist l []

theorem bestFold_go (iw ih : ℚ) (ps : List (ℕ × FreeRect)) (Q : ℕ × FreeRect → Prop) :
    ∀ st : XQ × Option (ℕ × FreeRect),
      (∀ q, st.2 = some q → Q q ∧ fitsIn q.2 iw ih = true) →
      (∀ q ∈ ps, Q q) →
      ∀ q, (ps.foldl (bestFold iw ih) st).2 = some q → Q q ∧ fitsIn q.2 iw ih = true := by
  induction ps with
  | nil => intro st hst _ q hq; exact hst q hq
  | cons a ps ih2 =>
    intro st hst hps q hq
    rw [List.foldl_cons] at hq
    refine ih2 _ ?_ (fun x hx => hps x (List.mem_cons_of_mem _ hx)) q hq
    intro q' hq'
    rw [bestFold] at hq'
    by_cases hcond : (fitsIn a.2 iw ih && XQ.ltB (shortSideFit a.2 iw ih) st.1) = true
    · rw [if_pos hcond] at hq'
      simp only [Option.some.injEq] at hq'
      rw [← hq']
      rw [Bool.and_eq_true] at hcond
      exact ⟨hps a (List.mem_cons_self _ _), hcond.1⟩
    · rw [if_neg hcond] at hq'
      exact hst q' hq'

theorem findBestRect_spec (rects : List FreeRect) (iw ih : ℚ) (idx : ℕ) (best : FreeRect)
    (h : findBestRect rects iw ih = some (idx, best)) :
    (idx, best) ∈ rects.enum ∧ fitsIn best iw ih = true := by
  rw [findBestRect] at h
  exact bestFold_go iw ih rects.enum (fun q => q ∈ rects.enum) (XQ.inf, none)
    (fun q hq => absurd hq (by simp)) (fun q hq => hq) (idx, best) h

theorem pairwise_rel_eraseIdx {α : Type} {R : α → α → Prop}
    (hsym : ∀ a b, R a b → R b a) (l : List α) :
    ∀ (i : ℕ) (a : α), l.get? i = some a → l.Pairwise R → ∀ b ∈ l.eraseIdx i, R a b := by
  induction l with
  | nil => intro i a ha _ b hb; simp at ha
  | cons c t ih =>
    intro i a ha hpw b hb
    cases i with
    | zero =>
      simp only [List.get?] at ha
      injection ha with ha
      subst ha
      rw [List.eraseIdx_cons_zero] at hb
      exact (List.pairwise_cons.mp hpw).1 b hb
    | succ j =>
      simp only [List.get?] at ha
      rw [List.eraseIdx_cons_succ] at hb
      rcases List.mem_cons.mp hb with rfl | hb'
      · exact hsym _ _ ((List.pairwise_cons.mp hpw).1 a (List.get?_mem ha))
      · exact ih j a ha (List.pairwise_cons.mp hpw).2 b hb'

theorem enum_mem_get {α : Type} (l : List α) (i : ℕ) (a : α) (h : (i, a) ∈ l.enum) :
    l.get? i = some a := by
  rw [List.get?_eq_getElem?]
  exact List.mem_enum_iff_getElem?.mp h

theorem guillotineStep_none (p : ℚ) (st : GuillotineState) (it : PackableItem)
    (h : findBestRect st.freeRects (it.width + p) (it.height + p) = none) :
    guillotineStep p st it = st := by
  rw [guillotineStep, h]

theorem guillotineStep_some (p : ℚ) (st : GuillotineState) (it : PackableItem)
    (idx : ℕ) (best : FreeRect)
    (h : findBestRect st.freeRects (it.width + p) (it.height + p) = some (idx, best)) :
    guillotineStep p st it =
      { freeRects := pruneOverlapping
          (st.freeRects.eraseIdx idx ++
            (splitRight best (it.width + p) (it.height + p) ++
             splitBottom best (it.width + p) (it.height + p)))
        packed := st.packed ++ [⟨it, best.x, best.y⟩] } := by
  rw [guillotineStep, h]

theorem item_subRect (it : PackableItem) (p : ℚ) (hp : 0 ≤ p) (r : FreeRect)
    (hfit : fitsIn r (it.width + p) (it.height + p) = true) :
    SubRect (itemRect ⟨it, r.x, r.y⟩) r := by
  rw [fitsIn, Bool.and_eq_true, decide_eq_true_eq] at hfit
  refine ⟨le_refl _, ?_, le_refl _, ?_⟩
  · show r.x + it.width ≤ r.x + r.width
    linarith [hfit.1]
  · show XQ.leB (XQ.addQ r.y (XQ.fin it.height)) (XQ.addQ r.y r.height) = true
    cases hhh : r.height with
    | inf => rfl
    | fin H =>
      have h2 := hfit.2
      rw [hhh] at h2
      simp only [XQ.leB, decide_eq_true_eq] at h2
      simp only [XQ.addQ, XQ.leB, decide_eq_true_eq]
      linarith

theorem item_disjoint_splitRight (it : PackableItem) (p : ℚ) (hp : 0 ≤ p) (r : FreeRect)
    (s : FreeRect) (hs : s ∈ splitRight r (it.width + p) (it.height + p)) :
    FRDisjoint (itemRect ⟨it, r.x, r.y⟩) s := by
  obtain ⟨rfl, -⟩ := mem_splitRight r _ _ s hs
  rw [FRDisjoint_iff]
  left
  show r.x + it.width ≤ r.x + (it.width + p)
  linarith

theorem item_disjoint_splitBottom (it : PackableItem) (p : ℚ) (hp : 0 ≤ p) (r : FreeRect)
    (s : FreeRect) (hs : s ∈ splitBottom r (it.width + p) (it.height + p)) :
    FRDisjoint (itemRect ⟨it, r.x, r.y⟩) s := by
  obtain ⟨rfl, -⟩ := mem_splitBottom r _ _ s hs
  rw [FRDisjoint_iff]
  refine Or.inr (Or.inr (Or.inl ?_))
  show XQ.leB (XQ.addQ r.y (XQ.fin it.height)) (XQ.fin (r.y + (it.height + p))) = true
  simp only [XQ.addQ, XQ.leB, decide_eq_true_eq]
  linarith

/-- Invariant of the guillotine packer's state: free rectangles stay inside
the container's horizontal band, are pairwise disjoint, and are disjoint
from every placed item; placed items are pairwise disjoint and within the
container's horizontal band. -/
structure GInv (cw p : ℚ) (st : GuillotineState) : Prop where
  bounds : ∀ r ∈ st.freeRects, InBounds cw p r
  frDisj : List.Pairwise FRDisjoint st.freeRects
  sep : ∀ r ∈ st.freeRects, ∀ pk ∈ st.packed, FRDisjoint r (itemRect pk)
  disj : List.Pairwise itemsDisjoint st.packed
  inCont : ∀ pk ∈ st.packed, p ≤ pk.x ∧ pk.x + pk.item.width ≤ cw - 2 * p

theorem guillotineStep_inv (cw p : ℚ) (hp : 0 ≤ p) (st : GuillotineState)
    (it : PackableItem) (hw : 0 < it.width) (hh : 0 < it.height) (hst : GInv cw p st) :
    GInv cw p (guillotineStep p st it) := by
  cases hfind : findBestRect st.freeRects (it.width + p) (it.height + p) with
  | none =>
    rw [guillotineStep_none p st it hfind]
    exact hst
  | some val =>
    obtain ⟨idx, best⟩ := val
    obtain ⟨hmem_enum, hfit⟩ := findBestRect_spec _ _ _ idx best hfind
    have hget : st.freeRects.get? idx = some best := enum_mem_get _ _ _ hmem_enum
    have hbestmem : best ∈ st.freeRects := List.get?_mem hget
    rw [guillotineStep_some p st it idx best hfind]
    have hothers_sub : (st.freeRects.eraseIdx idx).Sublist st.freeRects :=
      List.eraseIdx_sublist _ _
    have hbest_dis : ∀ u ∈ st.freeRects.eraseIdx idx, FRDisjoint best u :=
      pairwise_rel_eraseIdx FRDisjoint_symm st.freeRects idx best hget hst.frDisj
    have hitem_sub : SubRect (itemRect ⟨it, best.x, best.y⟩) best :=
      item_subRect it p hp best hfit
    have hsplits_sub : ∀ s ∈ splitRight best (it.width + p) (it.height + p) ++
        splitBottom best (it.width + p) (it.height + p), SubRect s best := by
      intro s hs
      rcases List.mem_append.mp hs with h | h
      · exact splitRight_subRect best _ _ (by linarith) hfit s h
      · exact splitBottom_subRect best _ _ (by linarith) s h
    have hprune := pruneOverlapping_sublist
      (st.freeRects.eraseIdx idx ++
        (splitRight best (it.width + p) (it.height + p) ++
         splitBottom best (it.width + p) (it.height + p)))
    refine ⟨?_, ?_, ?_, ?_, ?_⟩
    · intro r hr
      have hr' := hprune.subset hr
      rcases List.mem_append.mp hr' with h | h
      · exact hst.bounds r (hothers_sub.subset h)
      · exact InBounds_of_subRect cw p r best (hsplits_sub r h) (hst.bounds best hbestmem)
    · refine List.Pairwise.sublist hprune ?_
      rw [List.pairwise_append]
      refine ⟨List.Pairwise.sublist hothers_sub hst.frDisj, ?_, ?_⟩
      · rw [List.pairwise_append]
        refine ⟨?_, ?_, ?_⟩
        · rw [splitRight]
          split_ifs <;> simp
        · rw [splitBottom]
          split_ifs <;> simp
        · intro s hs t ht
          exact splitRight_disjoint_splitBottom best _ _ s t hs ht
      · intro u hu s hs
        exact FRDisjoint_symm _ _
          (SubRect_disjoint s best u (hsplits_sub s hs)
            (FRDisjoint_symm _ _ (FRDisjoint_symm _ _ (hbest_dis u hu))))
    · intro r hr pk hpk
      have hr' := hprune.subset hr
      rcases List.mem_append.mp hpk with hpkold | hpknew
      · rcases List.mem_append.mp hr' with h | h
        · exact hst.sep r (hothers_sub.subset h) pk hpkold
        · exact SubRect_disjoint r best (itemRect pk) (hsplits_sub r h)
            (hst.sep best hbestmem pk hpkold)
      · rw [List.mem_singleton.mp hpknew]
        rcases List.mem_append.mp hr' with h | h
        · exact FRDisjoint_symm _ _
            (SubRect_disjoint _ best r hitem_sub (hbest_dis r h))
        · rcases List.mem_append.mp h with hsr | hsb
          · exact FRDisjoint_symm _ _ (item_disjoint_splitRight it p hp best _ hsr)
          · exact FRDisjoint_symm _ _ (item_disjoint_splitBottom it p hp best _ hsb)
    · show List.Pairwise itemsDisjoint
        (st.packed ++ [({ item := it, x := best.x, y := best.y } : PackedItem)])
      rw [List.pairwise_append]
      refine ⟨hst.disj, List.pairwise_singleton _ _, ?_⟩
      intro a ha b hb
      rw [List.mem_singleton.mp hb]
      show FRDisjoint (itemRect a) (itemRect ⟨it, best.x, best.y⟩)
      exact FRDisjoint_symm _ _
        (SubRect_disjoint _ best _ hitem_sub (hst.sep best hbestmem a ha))
    · intro pk hpk
      rcases List.mem_append.mp hpk with hold | hnew
      · exact hst.inCont pk hold
      · rw [List.mem_singleton.mp hnew]
        have hb := hst.bounds best hbestmem
        rw [fitsIn, Bool.and_eq_true, decide_eq_true_eq] at hfit
        constructor
        · exact hb.1
        · show best.x + it.width ≤ cw - 2 * p
          linarith [hfit.1, hb.2]

theorem guillotine_fold_inv (cw p : ℚ) (hp : 0 ≤ p) (l : List PackableItem) :
    ∀ st : GuillotineState, (∀ it ∈ l, 0 < it.width ∧ 0 < it.height) → GInv cw p st →
      GInv cw p (l.foldl (guillotineStep p) st) := by
  induction l with
  | nil => intro st _ h; exact h
  | cons it l ih =>
    intro st hl h
    rw [List.foldl_cons]
    exact ih _ (fun x hx => hl x (List.mem_cons_of_mem _ hx))
      (guillotineStep_inv cw p hp st it (hl it (List.mem_cons_self _ _)).1
        (hl it (List.mem_cons_self _ _)).2 h)

theorem guillotineRun_inv (cw p : ℚ) (hp : 0 ≤ p) (items : List PackableItem)
    (hpos : ∀ it ∈ items, 0 < it.width ∧ 0 < it.height) :
    GInv cw p (guillotineRun cw p items) := by
  rw [guillotineRun]
  refine guillotine_fold_inv cw p hp _ _ ?_ ?_
  · intro it hit
    exact hpos it ((mem_sortBy _ _ _).mp hit)
  · refine ⟨?_, List.pairwise_singleton _ _, ?_, List.Pairwise.nil, ?_⟩
    · intro r hr
      rw [List.mem_singleton.mp hr]
      constructor
      · exact le_refl p
      · show p + (cw - p * 2) ≤ cw - p
        linarith
    · intro r hr pk hpk
      exact absurd hpk (List.not_mem_nil pk)
    · intro pk hpk
      exact absurd hpk (List.not_mem_nil pk)

theorem foldl_maxY_init (l : List PackedItem) :
    ∀ acc : ℚ, acc ≤ l.foldl (fun acc pk => max acc (pk.y + pk.item.height)) acc := by
  induction l with
  | nil => intro acc; exact le_refl acc
  | cons a l ih =>
    intro acc
    rw [List.foldl_cons]
    calc acc ≤ max acc (a.y + a.item.height) := le_max_left _ _
    _ ≤ _ := ih (max acc (a.y + a.item.height))

theorem maxYOf_bound (l : List PackedItem) :
    ∀ (acc : ℚ) (pk : PackedItem), pk ∈ l →
      pk.y + pk.item.height ≤ l.foldl (fun acc pk => max acc (pk.y + pk.item.height)) acc := by
  induction l with
  | nil => intro acc pk hpk; exact absurd hpk (List.not_mem_nil pk)
  | cons a l ih =>
    intro acc pk hpk
    rw [List.foldl_cons]
    rcases List.mem_cons.mp hpk with rfl | hpk'
    · calc pk.y + pk.item.height ≤ max acc (pk.y + pk.item.height) := le_max_right _ _
      _ ≤ _ := foldl_maxY_init l (max acc (pk.y + pk.item.height))
    · exact ih _ pk hpk'

theorem packItemsGuillotine_noOverlap (items : List PackableItem) (cw : ℚ)
    (opts : PackOptions) (hp : 0 ≤ resolvePadding opts.padding)
    (hpos : ∀ it ∈ items, 0 < it.width ∧ 0 < it.height) :
    List.Pairwise itemsDisjoint (packItemsGuillotine items cw opts).items :=
  (guillotineRun_inv cw (resolvePadding opts.padding) hp items hpos).disj

theorem packItemsGuillotine_widthBound (items : List PackableItem) (cw : ℚ)
    (opts : PackOptions) (hp : 0 ≤ resolvePadding opts.padding)
    (hpos : ∀ it ∈ items, 0 < it.width ∧ 0 < it.height) :
    ∀ pk ∈ (packItemsGuillotine items cw opts).items, pk.x + pk.item.width ≤ cw := by
  intro pk hpk
  have h := (guillotineRun_inv cw (resolvePadding opts.padding) hp items hpos).inCont pk hpk
  linarith [h.1, h.2]

theorem packItemsGuillotine_itemWidths (items : List PackableItem) (cw : ℚ)
    (opts : PackOptions) (hp : 0 ≤ resolvePadding opts.padding)
    (hpos : ∀ it ∈ items, 0 < it.width ∧ 0 < it.height) :
    ∀ pk ∈ (packItemsGuillotine items cw opts).items,
      pk.item.width ≤ cw - 2 * resolvePadding opts.padding := by
  intro pk hpk
  have h := (guillotineRun_inv cw (resolvePadding opts.padding) hp items hpos).inCont pk hpk
  linarith [h.1, h.2]

theorem packItemsGuillotine_heightBound (items : List PackableItem) (cw : ℚ)
    (opts : PackOptions) (hp : 0 ≤ resolvePadding opts.padding) :
    ∀ pk ∈ (packItemsGuillotine items cw opts).items,
      pk.y + pk.item.height ≤ (packItemsGuillotine items cw opts).containerHeight := by
  intro pk hpk
  show pk.y + pk.item.height ≤
    maxYOf (guillotineRun cw (resolvePadding opts.padding) items).packed +
      resolvePadding opts.padding
  have := maxYOf_bound (guillotineRun cw (resolvePadding opts.padding) items).packed 0 pk hpk
  rw [maxYOf]
  linarith

/-! ## C1 — no overlap and width bound -/

/-- C1 counterexample: the shelf packer places an item of width 100 into a
container of width 60 at `x = padding = 3`, so `x + width = 103 > 60` —
with positive dimensions, refuting the unconditional width bound. -/
theorem claim_C1_counterexample :
    (packItems [⟨"a", 100, 30⟩] 60 {}).items = [⟨⟨"a", 100, 30⟩, 3, 3⟩] ∧
    ¬((3 : ℚ) + 100 ≤ 60) ∧ (0 : ℚ) < 100 ∧ (0 : ℚ) < 30 := by
  refine ⟨?_, by norm_num, by norm_num, by norm_num⟩
  norm_num [packItems, shelfRun, shelfSorted, resolveSortByHeight, resolvePadding,
    sortBy, List.insertionSort, List.orderedInsert, shelfStep, placeOnShelves]

/-- C1 amended: for positive items and non-negative padding, no two placed
rectangles overlap for the shelf and guillotine strategies, and the
guillotine strategy satisfies `x + width ≤ containerWidth` unconditionally;
the shelf strategy satisfies the width bound provided every item's width
plus twice the padding fits the container (otherwise an oversized item is
placed on a fresh shelf at `x = padding`, overflowing); the column strategy
satisfies both provided every item's padded width fits the computed column
width. -/
theorem claim_C1_amended (items : List PackableItem) (cw : ℚ) (opts : PackOptions)
    (copts : ColumnOptions)
    (hp : 0 ≤ resolvePadding opts.padding)
    (hpc : 0 ≤ resolvePadding copts.padding)
    (hpos : ∀ it ∈ items, 0 < it.width ∧ 0 < it.height) :
    List.Pairwise itemsDisjoint (packItems items cw opts).items ∧
    ((∀ it ∈ items, it.width + 2 * resolvePadding opts.padding ≤ cw) →
      ∀ pk ∈ (packItems items cw opts).items, pk.x + pk.item.width ≤ cw) ∧
    List.Pairwise itemsDisjoint (packItemsGuillotine items cw opts).items ∧
    (∀ pk ∈ (packItemsGuillotine items cw opts).items, pk.x + pk.item.width ≤ cw) ∧
    ((1 ≤ resolveMaxCols copts.maxColumns ∧
      ∀ it ∈ items, it.width + resolvePadding copts.padding ≤
        columnWidthOf cw (numColumns cw (resolveMinColW copts.minColumnWidth)
          (resolveMaxCols copts.maxColumns))) →
      List.Pairwise itemsDisjoint (packIntoColumns items cw copts).items ∧
      ∀ pk ∈ (packIntoColumns items cw copts).items, pk.x + pk.item.width ≤ cw) := by
  refine ⟨packItems_noOverlap items cw opts hp hpos, ?_,
    packItemsGuillotine_noOverlap items cw opts hp hpos,
    packItemsGuillotine_widthBound items cw opts hp hpos, ?_⟩
  · intro hpro
    exact packItems_widthBound items cw opts hp hpos hpro
  · rintro ⟨hmc, hfit⟩
    exact ⟨packIntoColumns_noOverlap items cw copts hpc hpos hfit,
      packIntoColumns_widthBound items cw copts hpc hpos hmc hfit⟩

def wItem : PackableItem := ⟨"a", 10, 10⟩

theorem claim_C1_amended_witness :
    (0 ≤ resolvePadding ({} : PackOptions).padding) ∧
    (0 ≤ resolvePadding ({} : ColumnOptions).padding) ∧
    (∀ it ∈ [wItem], 0 < it.width ∧ 0 < it.height) ∧
    (List.Pairwise itemsDisjoint (packItems [wItem] 100 {}).items ∧
    ((∀ it ∈ [wItem], it.width + 2 * resolvePadding ({} : PackOptions).padding ≤ 100) →
      ∀ pk ∈ (packItems [wItem] 100 {}).items, pk.x + pk.item.width ≤ 100) ∧
    List.Pairwise itemsDisjoint (packItemsGuillotine [wItem] 100 {}).items ∧
    (∀ pk ∈ (packItemsGuillotine [wItem] 100 {}).items, pk.x + pk.item.width ≤ 100) ∧
    ((1 ≤ resolveMaxCols ({} : ColumnOptions).maxColumns ∧
      ∀ it ∈ [wItem], it.width + resolvePadding ({} : ColumnOptions).padding ≤
        columnWidthOf 100 (numColumns 100 (resolveMinColW ({} : ColumnOptions).minColumnWidth)
          (resolveMaxCols ({} : ColumnOptions).maxColumns))) →
      List.Pairwise itemsDisjoint (packIntoColumns [wItem] 100 {}).items ∧
      ∀ pk ∈ (packIntoColumns [wItem] 100 {}).items, pk.x + pk.item.width ≤ 100)) :=
  ⟨by decide, by decide, by decide,
    claim_C1_amended [wItem] 100 {} {} (by decide) (by decide) (by decide)⟩

/-! ## C8 — container height bounds the placement -/

/-- C8: for each of the three strategies (with non-negative padding and
positive item dimensions), the reported container height is at least
`y + height` for every placed item. -/
theorem claim_C8 (items : List PackableItem) (cw : ℚ) (opts : PackOptions)
    (copts : ColumnOptions)
    (hp : 0 ≤ resolvePadding opts.padding)
    (hpc : 0 ≤ resolvePadding copts.padding)
    (hpos : ∀ it ∈ items, 0 < it.width ∧ 0 < it.height) :
    (∀ pk ∈ (packItems items cw opts).items,
      pk.y + pk.item.height ≤ (packItems items cw opts).containerHeight) ∧
    (∀ pk ∈ (packItemsGuillotine items cw opts).items,
      pk.y + pk.item.height ≤ (packItemsGuillotine items cw opts).containerHeight) ∧
    (∀ pk ∈ (packIntoColumns items cw copts).items,
      pk.y + pk.item.height ≤ (packIntoColumns items cw copts).containerHeight) :=
  ⟨packItems_heightBound items cw opts hp hpos,
   packItemsGuillotine_heightBound items cw opts hp,
   packIntoColumns_heightBound items cw copts hpc hpos⟩

theorem claim_C8_witness :
    (0 ≤ resolvePadding ({} : PackOptions).padding) ∧
    (0 ≤ resolvePadding ({} : ColumnOptions).padding) ∧
    (∀ it ∈ [wItem], 0 < it.width ∧ 0 < it.height) ∧
    ((∀ pk ∈ (packItems [wItem] 100 {}).items,
      pk.y + pk.item.height ≤ (packItems [wItem] 100 {}).containerHeight) ∧
    (∀ pk ∈ (packItemsGuillotine [wItem] 100 {}).items,
      pk.y + pk.item.height ≤ (packItemsGuillotine [wItem] 100 {}).containerHeight) ∧
    (∀ pk ∈ (packIntoColumns [wItem] 100 {}).items,
      pk.y + pk.item.height ≤ (packIntoColumns [wItem] 100 {}).containerHeight)) :=
  ⟨by decide, by decide, by decide,
    claim_C8 [wItem] 100 {} {} (by decide) (by decide) (by decide)⟩

/-! ## C9 — guillotine drops unfittable items; shelf returns all items -/

/-- C9: with non-negative padding and positive dimensions, every item the
guillotine packer outputs has width at most `containerWidth - 2·padding`
(so an item wider than that is silently omitted); concretely, a single item
of width 100 packed into width 60 yields an empty output, strictly shorter
than the input; the shelf packer instead returns every input item exactly
once (its output is a permutation of the input). -/
theorem claim_C9 (items : List PackableItem) (cw : ℚ) (opts : PackOptions)
    (hp : 0 ≤ resolvePadding opts.padding)
    (hpos : ∀ it ∈ items, 0 < it.width ∧ 0 < it.height) :
    (∀ pk ∈ (packItemsGuillotine items cw opts).items,
      pk.item.width ≤ cw - 2 * resolvePadding opts.padding) ∧
    ((packItemsGuillotine [⟨"big", 100, 30⟩] 60 {}).items.length = 0 ∧
      ([(⟨"big", 100, 30⟩ : PackableItem)]).length = 1) ∧
    ((packItems items cw opts).items.map (fun pk => pk.item)).Perm items := by
  refine ⟨packItemsGuillotine_itemWidths items cw opts hp hpos, ⟨?_, rfl⟩,
    packItems_perm items cw opts⟩
  norm_num [packItemsGuillotine, guillotineRun, guillotineSorted, sortBy,
    List.insertionSort, List.orderedInsert, guillotineStep, findBestRect, List.enum,
    List.enumFrom, bestFold, fitsIn, XQ.leB, XQ.ltB, shortSideFit, XQ.minv, XQ.sub,
    resolvePadding, maxYOf]

theorem claim_C9_witness :
    (0 ≤ resolvePadding ({} : PackOptions).padding) ∧
    (∀ it ∈ [wItem], 0 < it.width ∧ 0 < it.height) ∧
    ((∀ pk ∈ (packItemsGuillotine [wItem] 100 {}).items,
      pk.item.width ≤ 100 - 2 * resolvePadding ({} : PackOptions).padding) ∧
    ((packItemsGuillotine [⟨"big", 100, 30⟩] 60 {}).items.length = 0 ∧
      ([(⟨"big", 100, 30⟩ : PackableItem)]).length = 1) ∧
    ((packItems [wItem] 100 {}).items.map (fun pk => pk.item)).Perm [wItem]) :=
  ⟨by decide, by decide, claim_C9 [wItem] 100 {} (by decide) (by decide)⟩

end CodeMatrix
